import Mathlib

/-!
# SGDSS: granular stochastic dynamic synthesis

Shallow embedding of `src/wavetable.hpp`, `src/GendyOscillator.hpp`,
`src/Stitcher.cpp` and `src/Genecho.cpp`.

Conventions of the embedding.

* `float` values are rationals (`ℚ`): every property below is about the order
  and the field operations, rounding and NaN are outside the model.
* `int` and `unsigned int` values are `Int`; `%` on `int` is `Int.tmod`
  (truncated remainder, as in C++).
* A C array `float a[N]` is a function `Int → ℚ` that is only ever accessed
  through `readArr N` and `writeArr N`.  An access outside `0 .. N-1` and a
  remainder by zero are undefined in C++; the embedding makes the enclosing
  operation return `none` there.
* Values the code obtains from its environment (random draws, host
  parameters, trigger edges, the input voltage) are arguments of the tick.
-/

namespace SGDSS

/-! ## Common helpers -/

/-- Bounds-checked read of `a[i]` for an array declared with `size` entries. -/
def readArr {α : Type} (size : Int) (a : Int → α) (i : Int) : Option α :=
  if 0 ≤ i ∧ i < size then some (a i) else none

/-- Bounds-checked write `a[i] = v` for an array declared with `size` entries. -/
def writeArr {α : Type} (size : Int) (a : Int → α) (i : Int) (v : α) : Option (Int → α) :=
  if 0 ≤ i ∧ i < size then some (Function.update a i v) else none

/-- Rack library `clamp(x, a, b)`: `max(min(x, b), a)`. -/
def clamp (x a b : ℚ) : ℚ :=
  max (min x b) a

/-- Conversion `(int) x` of a float: truncation toward zero. -/
def truncQ (x : ℚ) : Int :=
  if 0 ≤ x then Int.floor x else Int.ceil x

/-- C library `fmod(x, y)`: `x - n*y` with `n` the quotient truncated toward zero. -/
def fmod (x y : ℚ) : ℚ :=
  x - (truncQ (x / y) : ℚ) * y

/-! ## wavetable.hpp -/

/-- Macro `TABLE_SIZE`. -/
def TABLE_SIZE : Int := 2048

/-- Struct `Wavetable`: `float table[TABLE_SIZE]` (the shape tag `et` does not
take part in lookups). -/
structure Wavetable where
  table : Int → ℚ

/-- Method `Wavetable::index(float x)`. -/
def Wavetable.index (w : Wavetable) (x : ℚ) : Option ℚ := do
  let fl : Int := Int.floor x
  let ph : ℚ := x - (fl : ℚ)
  let lb ← readArr TABLE_SIZE w.table fl
  let ub ← readArr TABLE_SIZE w.table (Int.ceil x)
  pure (((1 - ph) * lb) + (ph * ub))

/-- Method `Wavetable::get(float x)`; the source documents `0.0 <= x < 1.0`. -/
def Wavetable.get (w : Wavetable) (x : ℚ) : Option ℚ :=
  w.index (x * (TABLE_SIZE : ℚ))

/-- The two subscripts `Wavetable::index(x)` applies to `table`:
`(int) floorf(x)` and `(int) ceilf(x)`. -/
def Wavetable.indexSubscripts (x : ℚ) : List Int :=
  [Int.floor x, Int.ceil x]

/-- The subscripts applied to `table` by `Wavetable::get(x)`. -/
def Wavetable.getSubscripts (x : ℚ) : List Int :=
  Wavetable.indexSubscripts (x * (TABLE_SIZE : ℚ))

/-- Loop skeleton of the table initialisers of wavetable.hpp,
`for (int i = 0; i < TABLE_SIZE; i++) { table[i] = body; phase = step; }`,
run for at most `fuel` iterations from counter `i`; `body` and `step` see the
counter and the local `phase`. -/
def Wavetable.fillTable (body : Int → ℚ → ℚ) (step : Int → ℚ → ℚ) :
    Nat → Int → ℚ → (Int → ℚ) → Option (Int → ℚ)
  | 0, i, _, t => if i < TABLE_SIZE then none else some t
  | fuel + 1, i, phase, t =>
    if i < TABLE_SIZE then do
      let t ← writeArr TABLE_SIZE t i (body i phase)
      Wavetable.fillTable body step fuel (i + 1) (step i phase) t
    else some t

/-- Value of the local `phase` of `Wavetable.fillTable` after `k` further
iterations, when it is `phase` at the start of iteration `i`. -/
def Wavetable.phaseAfter (step : Int → ℚ → ℚ) : Nat → Int → ℚ → ℚ
  | 0, _, phase => phase
  | k + 1, i, phase => Wavetable.phaseAfter step k (i + 1) (step i phase)

/-- Method `Wavetable::initSinWav` (lines 66-73).  `sinf` is the library sine
on floats and `twoPi` the float constant `2.f*M_PI`. -/
def Wavetable.initSinWav (sinf : ℚ → ℚ) (twoPi : ℚ) (w : Wavetable) : Option Wavetable :=
  (Wavetable.fillTable (fun _ phase => sinf (twoPi * phase))
    (fun i phase => phase + (i : ℚ) / twoPi) TABLE_SIZE.toNat 0 0 w.table).map Wavetable.mk

/-- Method `Wavetable::initDefaultEnv` (lines 75-84), the shape `TRI`. -/
def Wavetable.initDefaultEnv (w : Wavetable) : Option Wavetable :=
  (Wavetable.fillTable
    (fun i phase => if phase < 1 / 2 then (i : ℚ) / (TABLE_SIZE : ℚ)
      else ((-1 * (i : ℚ)) / (TABLE_SIZE : ℚ)) + 2)
    (fun _ phase => phase + 1 / (TABLE_SIZE : ℚ)) TABLE_SIZE.toNat 0 0 w.table).map Wavetable.mk

/-- Method `Wavetable::initWelchEnv` (lines 93-98), with `ts = (float) TABLE_SIZE`;
the loop has no `phase` variable. -/
def Wavetable.initWelchEnv (w : Wavetable) : Option Wavetable :=
  (Wavetable.fillTable
    (fun i _ => 1 - ((((i : ℚ) / (TABLE_SIZE : ℚ)) - ((TABLE_SIZE : ℚ) / 2))
      / ((TABLE_SIZE : ℚ) / 2)) ^ 2)
    (fun _ phase => phase) TABLE_SIZE.toNat 0 0 w.table).map Wavetable.mk

/-! ## GendyOscillator.hpp -/

/-- Macro `MAX_BPTS` of GendyOscillator.hpp. -/
def MAX_BPTS : Int := 50

/-- Struct `GendyOscillator`, all data members. -/
structure GendyOscillator where
  phase : ℚ
  GRAN_ON : Bool
  num_bpts : Int
  min_freq : Int
  max_freq : Int
  amps : Int → ℚ
  durs : Int → ℚ
  offs : Int → ℚ
  index : Int
  amp : ℚ
  amp_next : ℚ
  max_amp_step : ℚ
  max_dur_step : ℚ
  speed : ℚ
  rate : ℚ
  freq_mul : ℚ
  off : ℚ
  off_next : ℚ
  g_idx : ℚ
  g_idx_next : ℚ
  g_amp : ℚ
  g_amp_next : ℚ
  g_rate : ℚ
  sample : Wavetable
  env : Wavetable
  amp_out : ℚ
  last_flag : Bool

/-- Default member initialisers of `GendyOscillator`.  The two wavetables are
built by `initSinWav` from `sinf`; their contents are the argument `sine`. -/
def GendyOscillator.init (sine : Wavetable) : GendyOscillator where
  phase := 1
  GRAN_ON := true
  num_bpts := 12
  min_freq := 30
  max_freq := 1000
  amps := fun _ => 0
  durs := fun i => if i = 0 then 1 else 0
  offs := fun _ => 0
  index := 0
  amp := 0
  amp_next := 0
  max_amp_step := 1 / 20
  max_dur_step := 1 / 20
  speed := 0
  rate := 0
  freq_mul := 1
  off := 0
  off_next := 0
  g_idx := 0
  g_idx_next := 1 / 2
  g_amp := 0
  g_amp_next := 0
  g_rate := 1
  sample := sine
  env := sine
  amp_out := 0
  last_flag := false

/-- Method `GendyOscillator::wrap(in, lb, ub)`. -/
def GendyOscillator.wrap (x lb ub : ℚ) : ℚ :=
  if x > ub then ub
  else if x < lb then lb
  else x

/-- Body of `if (phase >= 1.0) { ... }` in `GendyOscillator::process`
(lines 68-90); `r1` and `r2` are the two results of `randomNormal()`. -/
def GendyOscillator.wrapTick (s : GendyOscillator) (deltaTime r1 r2 : ℚ) :
    Option GendyOscillator :=
  if s.num_bpts = 0 then none
  else
    let phase := s.phase - 1
    let amp := s.amp_next
    let index := Int.tmod (s.index + 1) s.num_bpts
    let last_flag := decide (index = s.num_bpts - 1)
    do
      let a ← readArr MAX_BPTS s.amps index
      let amps ← writeArr MAX_BPTS s.amps index
        (GendyOscillator.wrap (a + (s.max_amp_step * r1)) (-1) 1)
      let d ← readArr MAX_BPTS s.durs index
      let durs ← writeArr MAX_BPTS s.durs index
        (GendyOscillator.wrap (d + (s.max_dur_step * r2)) (1 / 2) (3 / 2))
      let amp_next ← readArr MAX_BPTS amps index
      let rate ← readArr MAX_BPTS durs index
      let off := s.off_next
      let off_next ← readArr MAX_BPTS s.offs index
      let g_idx := s.g_idx_next
      let g_idx_next : ℚ := 0
      let speed : ℚ :=
        ((((s.max_freq - s.min_freq : Int) : ℚ) * rate + (s.min_freq : ℚ)) * deltaTime)
          * (s.num_bpts : ℚ)
      let speed := speed * s.freq_mul
      pure { s with
        phase := phase, amp := amp, index := index, last_flag := last_flag,
        amps := amps, durs := durs, amp_next := amp_next, rate := rate,
        off := off, off_next := off_next, g_idx := g_idx, g_idx_next := g_idx_next,
        speed := speed }

/-- First part of `GendyOscillator::process` (lines 64-91): clear `last_flag`,
then run the wrap block when `phase >= 1.0`. -/
def GendyOscillator.preBlend (s : GendyOscillator) (deltaTime r1 r2 : ℚ) :
    Option GendyOscillator :=
  let s0 := { s with last_flag := false }
  if 1 ≤ s0.phase then s0.wrapTick deltaTime r1 r2 else some s0

/-- Output computation of `GendyOscillator::process` (lines 93-106). -/
def GendyOscillator.blend (s : GendyOscillator) : Option GendyOscillator :=
  if s.GRAN_ON then do
    let e ← s.env.get s.g_idx
    let x ← s.sample.get s.off
    let g_amp := s.amp + (e * x)
    let e2 ← s.env.get s.g_idx_next
    let x2 ← s.sample.get s.off_next
    let g_amp_next := s.amp_next + (e2 * x2)
    pure { s with
      g_amp := g_amp, g_amp_next := g_amp_next,
      amp_out := ((1 - s.phase) * g_amp) + (s.phase * g_amp_next) }
  else
    some { s with amp_out := ((1 - s.phase) * s.amp) + (s.phase * s.amp_next) }

/-- Accumulator updates that end `GendyOscillator::process` (lines 108-119). -/
def GendyOscillator.advance (s : GendyOscillator) : GendyOscillator :=
  { s with
    g_idx := fmod (s.g_idx + (s.speed / 2)) 1
    g_idx_next := fmod (s.g_idx_next + (s.speed / 2)) 1
    off := fmod (s.off + (s.g_rate * (1 / 10) * (1 / 48000))) 1
    off_next := fmod (s.off_next + (s.g_rate * (1 / 10000) * (1 / 48000))) 1
    phase := s.phase + s.speed }

/-- Method `GendyOscillator::process(float deltaTime)`. -/
def GendyOscillator.process (s : GendyOscillator) (deltaTime r1 r2 : ℚ) :
    Option GendyOscillator := do
  let s1 ← s.preBlend deltaTime r1 r2
  let s2 ← s1.blend
  pure s2.advance

/-- Method `GendyOscillator::out()`. -/
def GendyOscillator.out (s : GendyOscillator) : ℚ :=
  s.amp_out

/-- Public control members a host writes before a tick (`MyModule::step`
lines 83-113 write `num_bpts`, `max_amp_step`, `max_dur_step`, `freq_mul`,
`g_rate` and the envelope table; `GRAN_ON` is a public member as well). -/
structure Controls where
  GRAN_ON : Bool
  num_bpts : Int
  max_amp_step : ℚ
  max_dur_step : ℚ
  freq_mul : ℚ
  g_rate : ℚ
  env : Wavetable

/-- Host write of the control members. -/
def GendyOscillator.setControls (s : GendyOscillator) (c : Controls) : GendyOscillator :=
  { s with
    GRAN_ON := c.GRAN_ON, num_bpts := c.num_bpts, max_amp_step := c.max_amp_step,
    max_dur_step := c.max_dur_step, freq_mul := c.freq_mul, g_rate := c.g_rate,
    env := c.env }

/-- Environment of one host tick: the control values written, the sample
period and the two random draws. -/
structure Tick where
  controls : Controls
  deltaTime : ℚ
  r1 : ℚ
  r2 : ℚ

/-- Successive host ticks (control write, then `process`).  The result lists,
for every tick, the state on entry to `process` and the state it leaves. -/
def GendyOscillator.run :
    GendyOscillator → List Tick → Option (List (GendyOscillator × GendyOscillator))
  | _, [] => some []
  | s, t :: ts => do
    let s0 := s.setControls t.controls
    let s1 ← s0.process t.deltaTime t.r1 t.r2
    let rest ← s1.run ts
    pure ((s0, s1) :: rest)

/-- Number of wrap ticks (ticks entered with `phase >= 1.0`) in a run. -/
def wrapCount (tr : List (GendyOscillator × GendyOscillator)) : Nat :=
  (tr.filter (fun p => decide (1 ≤ p.1.phase))).length

/-- Number of ticks of a run that leave `last_flag` true. -/
def flagCount (tr : List (GendyOscillator × GendyOscillator)) : Nat :=
  (tr.filter (fun p => p.2.last_flag)).length

/-- States reachable from the constructed oscillator by host writes and
`process` ticks. -/
inductive Reachable : GendyOscillator → Prop
  | init (sine : Wavetable) : Reachable (GendyOscillator.init sine)
  | host (s : GendyOscillator) (c : Controls) : Reachable s → Reachable (s.setControls c)
  | tick (s s' : GendyOscillator) (deltaTime r1 r2 : ℚ) :
      Reachable s → s.process deltaTime r1 r2 = some s' → Reachable s'

/-- States reachable from the constructed oscillator by host writes and
`process` ticks on which every recomputed `speed` lies in `[0, 1]`. -/
inductive ReachableUnitSpeed : GendyOscillator → Prop
  | init (sine : Wavetable) : ReachableUnitSpeed (GendyOscillator.init sine)
  | host (s : GendyOscillator) (c : Controls) :
      ReachableUnitSpeed s → ReachableUnitSpeed (s.setControls c)
  | tick (s s' : GendyOscillator) (deltaTime r1 r2 : ℚ) :
      ReachableUnitSpeed s → s.process deltaTime r1 r2 = some s' →
      (1 ≤ s.phase → 0 ≤ s'.speed ∧ s'.speed ≤ 1) → ReachableUnitSpeed s'

/-- A wavetable whose entries are all zero. -/
def zeroTable : Wavetable :=
  ⟨fun _ => 0⟩

/-- Control values with the granular overlay switched off and two breakpoints. -/
def plainControls : Controls where
  GRAN_ON := false
  num_bpts := 2
  max_amp_step := 1 / 20
  max_dur_step := 1 / 20
  freq_mul := 1
  g_rate := 1
  env := zeroTable

/-- The constructed oscillator after the host wrote `plainControls`. -/
def plainOsc : GendyOscillator :=
  (GendyOscillator.init zeroTable).setControls plainControls

/-- The oscillator `plainOsc` after one tick at 48 kHz with both draws 0. -/
def plainOsc1 : GendyOscillator :=
  (plainOsc.process (1 / 48000) 0 0).getD plainOsc

/-- A tick with `plainControls` whose sample period makes the recomputed
`speed` equal to 1 from the constructed state. -/
def fastTick : Tick where
  controls := plainControls
  deltaTime := 1 / 1030
  r1 := 0
  r2 := 0

/-- The oscillator `plainOsc` after one `fastTick`. -/
def fastOsc1 : GendyOscillator :=
  (plainOsc.process (1 / 1030) 0 0).getD plainOsc

/-- The oscillator `plainOsc` after two `fastTick`s. -/
def fastOsc2 : GendyOscillator :=
  ((fastOsc1.setControls plainControls).process (1 / 1030) 0 0).getD plainOsc

/-- Entry and exit states of two `fastTick`s from the constructed oscillator. -/
def fastTrace : List (GendyOscillator × GendyOscillator) :=
  [(plainOsc, fastOsc1), (fastOsc1.setControls plainControls, fastOsc2)]

/-- Arguments of the four `Wavetable::get` calls of `GendyOscillator::process`
(lines 99-100), in source order: `env.get(g_idx)`, `sample.get(off)`,
`env.get(g_idx_next)`, `sample.get(off_next)`. -/
def GendyOscillator.getArgs (s : GendyOscillator) : List ℚ :=
  [s.g_idx, s.off, s.g_idx_next, s.off_next]

/-- States reachable from the constructed oscillator by host writes with
`g_rate >= 0` and `process` ticks on which every recomputed `speed` is
non-negative. -/
inductive ReachableForward : GendyOscillator → Prop
  | init (sine : Wavetable) : ReachableForward (GendyOscillator.init sine)
  | host (s : GendyOscillator) (c : Controls) :
      ReachableForward s → 0 ≤ c.g_rate → ReachableForward (s.setControls c)
  | tick (s s' : GendyOscillator) (deltaTime r1 r2 : ℚ) :
      ReachableForward s → s.process deltaTime r1 r2 = some s' →
      (1 ≤ s.phase → 0 ≤ s'.speed) → ReachableForward s'

/-! ## Stitcher.cpp -/

/-- Macro `NUM_OSCS`. -/
def NUM_OSCS : Int := 4

/-- Interface of the oscillator class driven by the stitcher.  `Stitcher.cpp`
includes `GrandyOscillator.hpp`, which is not among the sources; these are the
members `Stitcher::process` uses.  `R` is the randomness one call consumes. -/
structure OscOps (O R : Type) where
  process : O → ℚ → R → Option O
  out : O → ℚ
  last_flag : O → Bool
  speed : O → ℚ

/-- The oscillator of `GendyOscillator.hpp` seen through the interface. -/
def gendyOps : OscOps GendyOscillator (ℚ × ℚ) where
  process := fun o dt r => o.process dt r.1 r.2
  out := GendyOscillator.out
  last_flag := GendyOscillator.last_flag
  speed := GendyOscillator.speed

/-- Data members of `Stitcher` that `Stitcher::process` lines 212-292 use. -/
structure Stitcher (O : Type) where
  gos : Int → O
  osc_idx : Int
  curr_num_oscs : Int
  stutters : Int → Int
  current_stutter : Int
  phase : ℚ
  amp : ℚ
  amp_next : ℚ
  amp_out : ℚ
  speed : ℚ
  is_swapping : Bool

/-- Default member initialisers of `Stitcher`; `o` is a constructed oscillator. -/
def Stitcher.init {O : Type} (o : O) : Stitcher O where
  gos := fun _ => o
  osc_idx := 0
  curr_num_oscs := NUM_OSCS
  stutters := fun i => if i = 0 then 1 else 0
  current_stutter := 1
  phase := 0
  amp := 0
  amp_next := 0
  amp_out := 0
  speed := 0
  is_swapping := false

/-- Host values read at the top of `Stitcher::process` (lines 186-263):
the `G_NOSC_PARAM` knob, the four `ST_PARAM` knobs and, for each oscillator,
the writes to its control members. -/
structure StitcherParams (O : Type) where
  nosc : ℚ
  st : Int → ℚ
  config : Int → O → O

/-- Parameter prologue of `Stitcher::process` (lines 212-263). -/
def Stitcher.readParams {O : Type} (s : Stitcher O) (p : StitcherParams O) : Stitcher O :=
  { s with
    curr_num_oscs := truncQ (clamp p.nosc 1 4)
    stutters := fun i => if 0 ≤ i ∧ i < NUM_OSCS then truncQ (p.st i) else s.stutters i
    gos := fun i => if 0 ≤ i ∧ i < NUM_OSCS then p.config i (s.gos i) else s.gos i }

/-- The linear blend `((1.0 - phase) * amp) + (phase * amp_next)` of
`Stitcher::process` line 266. -/
def Stitcher.crossfade (amp amp_next phase : ℚ) : ℚ :=
  ((1 - phase) * amp) + (phase * amp_next)

/-- Method `Stitcher::process`.  `ra` feeds the `process` call of line 272 and
`rb` the one of line 283.  The second component lists, in order, the
subscripts `k` of the calls `gos[k].process(deltaTime)` made by the tick. -/
def Stitcher.process {O R : Type} (ops : OscOps O R) (s : Stitcher O) (deltaTime : ℚ)
    (p : StitcherParams O) (ra rb : R) : Option (Stitcher O × List Int) :=
  let s := s.readParams p
  if s.is_swapping then
    let s := { s with amp_out := Stitcher.crossfade s.amp s.amp_next s.phase }
    let s := { s with phase := s.phase + s.speed }
    if 1 ≤ s.phase then some ({ s with is_swapping := false }, [])
    else some (s, [])
  else do
    let i := s.osc_idx
    let o ← readArr NUM_OSCS s.gos i
    let o ← ops.process o deltaTime ra
    let s := { s with gos := Function.update s.gos i o }
    let s := { s with amp_out := ops.out o }
    if ops.last_flag o then
      let s := { s with current_stutter := s.current_stutter - 1 }
      if s.current_stutter < 1 then
        let s := { s with amp := s.amp_out }
        let s := { s with speed := ops.speed o }
        if s.curr_num_oscs = 0 then none
        else do
          let s := { s with osc_idx := Int.tmod (s.osc_idx + 1) s.curr_num_oscs }
          let j := s.osc_idx
          let n ← readArr NUM_OSCS s.gos j
          let n ← ops.process n deltaTime rb
          let s := { s with gos := Function.update s.gos j n }
          let s := { s with amp_next := ops.out n }
          let st ← readArr NUM_OSCS s.stutters j
          let s := { s with current_stutter := st }
          let s := { s with phase := 0 }
          some ({ s with is_swapping := true }, [i, j])
      else some (s, [i])
    else some (s, [i])

/-- Value passed to `outputs[SINE_OUTPUT].setVoltage` (line 294). -/
def Stitcher.output {O : Type} (s : Stitcher O) : ℚ :=
  5 * s.amp_out

/-- Parameters that switch every oscillator to `plainControls`, with all four
oscillators active and every stutter count 1. -/
def plainParams : StitcherParams GendyOscillator where
  nosc := 4
  st := fun _ => 1
  config := fun _ o => o.setControls plainControls

/-- The constructed stitcher over four constructed oscillators. -/
def demoStitcher : Stitcher GendyOscillator :=
  Stitcher.init (GendyOscillator.init zeroTable)

/-- Result of the first tick of `demoStitcher` under `plainParams` at 48 kHz
with all draws 0. -/
def demoHandoff : Stitcher GendyOscillator × List Int :=
  (Stitcher.process gendyOps demoStitcher (1 / 48000) plainParams (0, 0) (0, 0)).getD
    (demoStitcher, [])

/-- Result of the tick that follows `demoHandoff`. -/
def demoCross : Stitcher GendyOscillator × List Int :=
  (Stitcher.process gendyOps demoHandoff.1 (1 / 48000) plainParams (0, 0) (0, 0)).getD
    (demoStitcher, [])

/-- The constructed stitcher at the moment its fourth oscillator is playing. -/
def staleStitcher : Stitcher GendyOscillator :=
  { demoStitcher with osc_idx := 3 }

/-- The parameters `plainParams` with the active oscillator count lowered to 2. -/
def twoOscParams : StitcherParams GendyOscillator :=
  { plainParams with nosc := 2 }

/-- Result of the tick of `staleStitcher` under `twoOscParams`. -/
def staleTick : Stitcher GendyOscillator × List Int :=
  (Stitcher.process gendyOps staleStitcher (1 / 48000) twoOscParams (0, 0) (0, 0)).getD
    (staleStitcher, [])

/-- The oscillator `plainOsc1` after a second tick at 48 kHz with both draws 0. -/
def plainOsc2 : GendyOscillator :=
  (plainOsc1.process (1 / 48000) 0 0).getD plainOsc

/-- State of the first tick of `plainOsc` between the wrap block and the
output computation. -/
def plainOscPre : GendyOscillator :=
  (plainOsc.preBlend (1 / 48000) 0 0).getD plainOsc

/-! ## Genecho.cpp -/

/-- Macro `MAX_SAMPLE_SIZE`. -/
def MAX_SAMPLE_SIZE : Int := 44100

/-- Data members of `GenEcho` used by the synthesis and the recorder.
`unsigned int` members hold non-negative values. -/
structure GenEcho where
  phase : ℚ
  sample : Int → ℚ
  _sample : Int → ℚ
  sample_length : Int
  idx : Int
  bpt_spc : Int
  env_dur : Int
  num_bpts : Int
  mAmps : Int → ℚ
  mDurs : Int → ℚ
  env : Wavetable
  index : Int
  max_amp_step : ℚ
  max_dur_step : ℚ
  amp : ℚ
  amp_next : ℚ
  g_idx : ℚ
  g_idx_next : ℚ
  sampling : Bool
  s_i : Int
  astp : ℚ
  dstp : ℚ
  is_mirroring : Bool
  is_accumulating : Bool

/-- Macro `MAX_BPTS` of Genecho.cpp. -/
def GenEcho.MAX_BPTS : Int := 4096

/-- Table built by `Wavetable::initDefaultEnv` (shape `TRI`): the running
`phase` of the loop is `i / TABLE_SIZE`. -/
def triTable : Wavetable :=
  ⟨fun i => if (i : ℚ) / (TABLE_SIZE : ℚ) < 1 / 2 then (i : ℚ) / (TABLE_SIZE : ℚ)
    else ((-1 * (i : ℚ)) / (TABLE_SIZE : ℚ)) + 2⟩

/-- Default member initialisers of `GenEcho`. -/
def GenEcho.init : GenEcho where
  phase := 1
  sample := fun _ => 0
  _sample := fun _ => 0
  sample_length := MAX_SAMPLE_SIZE
  idx := 0
  bpt_spc := 1500
  env_dur := 1500 / 2
  num_bpts := MAX_SAMPLE_SIZE / 1500
  mAmps := fun _ => 0
  mDurs := fun i => if i = 0 then 1 else 0
  env := triTable
  index := 0
  max_amp_step := 1 / 20
  max_dur_step := 1 / 20
  amp := 0
  amp_next := 0
  g_idx := 0
  g_idx_next := 1 / 2
  sampling := false
  s_i := 0
  astp := 1
  dstp := 1
  is_mirroring := false
  is_accumulating := false

/-- Free functions `wrap` and `mirror` called by `GenEcho::process`; they are
declared outside the sources and enter as parameters. -/
structure EchoLib where
  wrap : ℚ → ℚ → ℚ → ℚ
  mirror : ℚ → ℚ → ℚ → ℚ

/-- Values `GenEcho::process` obtains from the host on one tick. -/
structure EchoIn where
  /-- Switch `(int) params[ACCM_PARAM].getValue()`. -/
  is_accumulating : Bool
  /-- Switch `(int) params[MIRR_PARAM].getValue()`. -/
  is_mirroring : Bool
  /-- Result of the `rescale` of line 146. -/
  max_amp_step : ℚ
  /-- Result of the `rescale` of line 147. -/
  max_dur_step : ℚ
  /-- Knob `params[SLEN_PARAM].getValue()`. -/
  slen : ℚ
  /-- Value of `bpt_spc` after lines 151-152 (an `unsigned int`). -/
  bpt_spc : Int
  /-- Table regenerated by `env.switchEnvType` when the shape changes. -/
  envSwitch : Option Wavetable
  /-- Result of `smpTrigger.process(..) || resetTrigger.process(..)`. -/
  reset : Bool
  /-- Result of `g2Trigger.process(..)`. -/
  gate : Bool
  /-- Voltage `inputs[WAV0_INPUT].getVoltage()`. -/
  wav0 : ℚ
  /-- First value of `rg.my_rand(dt, random::normal())`. -/
  ra : ℚ
  /-- Second value of `rg.my_rand(dt, random::normal())`. -/
  rb : ℚ

/-- Parameter prologue of `GenEcho::process` (lines 137-162). -/
def GenEcho.readParams (s : GenEcho) (p : EchoIn) : Option GenEcho :=
  let sample_length := truncQ (clamp p.slen (1 / 10) 1 * (MAX_SAMPLE_SIZE : ℚ))
  if p.bpt_spc = 0 then none
  else
    some { s with
      is_accumulating := p.is_accumulating, is_mirroring := p.is_mirroring,
      max_amp_step := p.max_amp_step, max_dur_step := p.max_dur_step,
      sample_length := sample_length, bpt_spc := p.bpt_spc,
      num_bpts := sample_length / p.bpt_spc + 1,
      env_dur := p.bpt_spc / 2,
      env := match p.envSwitch with
        | some w => w
        | none => s.env }

/-- Sample reset (lines 165-171). -/
def GenEcho.resetBlock (s : GenEcho) (p : EchoIn) : GenEcho :=
  if p.reset then
    { s with
      sample := fun i => if 0 ≤ i ∧ i < MAX_SAMPLE_SIZE then s._sample i else s.sample i
      mAmps := fun i => if 0 ≤ i ∧ i < GenEcho.MAX_BPTS then 0 else s.mAmps i
      mDurs := fun i => if 0 ≤ i ∧ i < GenEcho.MAX_BPTS then 1 else s.mDurs i }
  else s

/-- Record gate (lines 174-186). -/
def GenEcho.gateBlock (s : GenEcho) (p : EchoIn) : GenEcho :=
  if p.gate then
    { s with
      mAmps := fun i => if 0 ≤ i ∧ i < GenEcho.MAX_BPTS then 0 else s.mAmps i
      mDurs := fun i => if 0 ≤ i ∧ i < GenEcho.MAX_BPTS then 1 else s.mDurs i
      num_bpts := s.sample_length / s.bpt_spc
      sampling := true
      idx := 0
      s_i := 0 }
  else s

/-- The loop `while (s_i < MAX_SAMPLE_SIZE) { ... }` of lines 194-198, run for
at most `fuel` iterations; the result is `sample` and `s_i` at loop exit. -/
def GenEcho.fillLoop (x y : ℚ) : Nat → (Int → ℚ) → ℚ → Int → Option ((Int → ℚ) × Int)
  | 0, sample, _, s_i => if s_i < MAX_SAMPLE_SIZE then none else some (sample, s_i)
  | fuel + 1, sample, p, s_i =>
    if s_i < MAX_SAMPLE_SIZE then do
      let sample ← writeArr MAX_SAMPLE_SIZE sample s_i ((x * (1 - p)) + (y * p))
      GenEcho.fillLoop x y fuel sample (p + 1 / 50) (s_i + 1)
    else some (sample, s_i)

/-- Recorder (lines 188-206). -/
def GenEcho.recordBlock (s : GenEcho) (p : EchoIn) : Option GenEcho :=
  if s.sampling then
    if s.s_i ≥ MAX_SAMPLE_SIZE - 50 then do
      let x ← readArr MAX_SAMPLE_SIZE s.sample (s.s_i - 1)
      let y ← readArr MAX_SAMPLE_SIZE s.sample 0
      let r ← GenEcho.fillLoop x y (MAX_SAMPLE_SIZE - s.s_i).toNat s.sample 0 s.s_i
      pure { s with sample := r.1, s_i := r.2, sampling := false }
    else do
      let sample ← writeArr MAX_SAMPLE_SIZE s.sample s.s_i p.wav0
      let v ← readArr MAX_SAMPLE_SIZE sample s.s_i
      let snap ← writeArr MAX_SAMPLE_SIZE s._sample s.s_i v
      pure { s with sample := sample, _sample := snap, s_i := s.s_i + 1 }
  else some s

/-- Breakpoint step `if (phase >= 1.0) { ... }` (lines 208-232). -/
def GenEcho.wrapBlock (lib : EchoLib) (s : GenEcho) (p : EchoIn) : Option GenEcho :=
  if 1 ≤ s.phase then
    if s.num_bpts = 0 then none
    else do
      let index := Int.tmod (s.index + 1) s.num_bpts
      let astp := s.max_amp_step * p.ra
      let dstp := s.max_dur_step * p.rb
      let a ← readArr GenEcho.MAX_BPTS s.mAmps index
      let d ← readArr GenEcho.MAX_BPTS s.mDurs index
      let bound := if s.is_mirroring then lib.mirror else lib.wrap
      let mAmps ← writeArr GenEcho.MAX_BPTS s.mAmps index
        (bound ((if s.is_accumulating then a else 0) + astp) (-1) 1)
      let mDurs ← writeArr GenEcho.MAX_BPTS s.mDurs index
        (bound (d + dstp) (1 / 2) (3 / 2))
      let amp_next ← readArr GenEcho.MAX_BPTS mAmps index
      pure { s with
        phase := s.phase - 1, amp := s.amp_next, index := index, astp := astp,
        dstp := dstp, mAmps := mAmps, mDurs := mDurs, amp_next := amp_next,
        g_idx := s.g_idx_next, g_idx_next := 0 }
  else some s

/-- Buffer write and accumulator updates (lines 235-242); the second
component is `amp_out`. -/
def GenEcho.writeBlock (lib : EchoLib) (s : GenEcho) : Option (GenEcho × ℚ) :=
  if s.sample_length = 0 then none
  else do
    let v ← readArr MAX_SAMPLE_SIZE s.sample s.idx
    let e ← s.env.get s.g_idx
    let sample ← writeArr MAX_SAMPLE_SIZE s.sample s.idx (lib.wrap (v + (s.amp * e)) (-5) 5)
    let amp_out ← readArr MAX_SAMPLE_SIZE sample s.idx
    let d ← readArr GenEcho.MAX_BPTS s.mDurs s.index
    pure ({ s with
      sample := sample
      idx := Int.tmod (s.idx + 1) s.sample_length
      g_idx := fmod (s.g_idx + (1 / (4 * (s.env_dur : ℚ)))) 1
      g_idx_next := fmod (s.g_idx_next + (1 / (4 * (s.env_dur : ℚ)))) 1
      phase := s.phase + 1 / (d * (s.bpt_spc : ℚ)) }, amp_out)

/-- State of `GenEcho::process` after the recorder block (lines 137-206). -/
def GenEcho.recorded (s : GenEcho) (p : EchoIn) : Option GenEcho := do
  let s ← s.readParams p
  let s := s.resetBlock p
  let s := s.gateBlock p
  s.recordBlock p

/-- Method `GenEcho::process`; the second component is the value given to
`outputs[SINE_OUTPUT].setVoltage`. -/
def GenEcho.process (lib : EchoLib) (s : GenEcho) (p : EchoIn) : Option (GenEcho × ℚ) := do
  let s ← s.recorded p
  let s ← GenEcho.wrapBlock lib s p
  GenEcho.writeBlock lib s

/-- Successive ticks of `GenEcho::process`. -/
def GenEcho.run (lib : EchoLib) : GenEcho → List EchoIn → Option GenEcho
  | s, [] => some s
  | s, p :: ps => do
    let r ← GenEcho.process lib s p
    GenEcho.run lib r.1 ps

/-- Modelled from the spec: the free functions `wrap` and `mirror`, declared
outside the sources.  Section 4.2 gives `wrap` as the clamp to
`[lowerBound, upperBound]` and `mirror` as the reflection of the overshoot. -/
def clampLib : EchoLib where
  wrap := fun x lb ub => if x > ub then ub else if x < lb then lb else x
  mirror := fun x lb ub => if x > ub then ub + (ub - x) else if x < lb then lb + (lb - x) else x

/-- A tick with a gate edge, the shortest active length (`SLEN` knob at 0.1,
so `sample_length = 4410`) and input voltage 1. -/
def gateIn : EchoIn where
  is_accumulating := false
  is_mirroring := false
  max_amp_step := 1 / 20
  max_dur_step := 1 / 20
  slen := 1 / 10
  bpt_spc := 1024
  envSwitch := none
  reset := false
  gate := true
  wav0 := 1
  ra := 0
  rb := 0

/-- The same tick without the gate edge. -/
def holdIn : EchoIn :=
  { gateIn with gate := false }

/-- A recording in progress whose cursor has reached `4410 - 50`. -/
def echoShort : GenEcho :=
  { GenEcho.init with sampling := true, s_i := 4360 }

/-- A recording in progress whose cursor has reached `MAX_SAMPLE_SIZE - 50`,
with 1 in `sample[0]` and 0 elsewhere. -/
def echoFull : GenEcho :=
  { GenEcho.init with
    sampling := true, s_i := 44050, sample := fun i => if i = 0 then 1 else 0 }

/-- State the recorder leaves on the tick `holdIn` from `echoFull`. -/
def echoFilled : GenEcho :=
  (echoFull.recorded holdIn).getD echoFull

/-- Result of the gate tick `gateIn` on the constructed module. -/
def echoGated : GenEcho × ℚ :=
  (GenEcho.process clampLib GenEcho.init gateIn).getD (GenEcho.init, 0)

/-- The tick `holdIn` with the reset trigger fired. -/
def echoResetIn : EchoIn :=
  { holdIn with reset := true }

/-- The module `echoGated` after the parameter prologue of a reset tick. -/
def echoAfterParams : GenEcho :=
  (echoGated.1.readParams echoResetIn).getD GenEcho.init

/-! ## Theorems -/

/-! ### Array and tick lemmas -/

theorem wrap_mem (x lb ub : ℚ) (h : lb ≤ ub) :
    lb ≤ GendyOscillator.wrap x lb ub ∧ GendyOscillator.wrap x lb ub ≤ ub := by
  unfold GendyOscillator.wrap
  split_ifs with h1 h2
  · exact ⟨h, le_refl _⟩
  · exact ⟨le_refl _, h⟩
  · exact ⟨not_lt.mp h2, not_lt.mp h1⟩

theorem readArr_eq_some {α : Type} {size : Int} {a : Int → α} {i : Int} {v : α}
    (h : readArr size a i = some v) : 0 ≤ i ∧ i < size ∧ v = a i := by
  unfold readArr at h
  split_ifs at h with hb
  exact ⟨hb.1, hb.2, (Option.some.inj h).symm⟩

theorem writeArr_eq_some {α : Type} {size : Int} {a b : Int → α} {i : Int} {v : α}
    (h : writeArr size a i v = some b) : 0 ≤ i ∧ i < size ∧ b = Function.update a i v := by
  unfold writeArr at h
  split_ifs at h with hb
  exact ⟨hb.1, hb.2, (Option.some.inj h).symm⟩

theorem readArr_of_mem {α : Type} {size : Int} (a : Int → α) {i : Int} (h0 : 0 ≤ i) (h1 : i < size) :
    readArr size a i = some (a i) := by
  simp [readArr, h0, h1]

theorem writeArr_of_mem {α : Type} {size : Int} (a : Int → α) {i : Int} (v : α) (h0 : 0 ≤ i) (h1 : i < size) :
    writeArr size a i v = some (Function.update a i v) := by
  simp [writeArr, h0, h1]

/-- Characterisation of a defined wrap block. -/
theorem wrapTick_eq_some {s s' : GendyOscillator} {dt r1 r2 : ℚ}
    (h : s.wrapTick dt r1 r2 = some s') :
    s.num_bpts ≠ 0 ∧ 0 ≤ Int.tmod (s.index + 1) s.num_bpts ∧
      Int.tmod (s.index + 1) s.num_bpts < MAX_BPTS ∧
      s' = { s with
        phase := s.phase - 1
        amp := s.amp_next
        index := Int.tmod (s.index + 1) s.num_bpts
        last_flag := decide (Int.tmod (s.index + 1) s.num_bpts = s.num_bpts - 1)
        amps := Function.update s.amps (Int.tmod (s.index + 1) s.num_bpts)
          (GendyOscillator.wrap (s.amps (Int.tmod (s.index + 1) s.num_bpts)
            + s.max_amp_step * r1) (-1) 1)
        durs := Function.update s.durs (Int.tmod (s.index + 1) s.num_bpts)
          (GendyOscillator.wrap (s.durs (Int.tmod (s.index + 1) s.num_bpts)
            + s.max_dur_step * r2) (1 / 2) (3 / 2))
        amp_next := GendyOscillator.wrap (s.amps (Int.tmod (s.index + 1) s.num_bpts)
            + s.max_amp_step * r1) (-1) 1
        rate := GendyOscillator.wrap (s.durs (Int.tmod (s.index + 1) s.num_bpts)
            + s.max_dur_step * r2) (1 / 2) (3 / 2)
        off := s.off_next
        off_next := s.offs (Int.tmod (s.index + 1) s.num_bpts)
        g_idx := s.g_idx_next
        g_idx_next := 0
        speed := ((((s.max_freq - s.min_freq : Int) : ℚ)
            * GendyOscillator.wrap (s.durs (Int.tmod (s.index + 1) s.num_bpts)
              + s.max_dur_step * r2) (1 / 2) (3 / 2)
            + (s.min_freq : ℚ)) * dt) * (s.num_bpts : ℚ) * s.freq_mul } := by
  unfold GendyOscillator.wrapTick at h
  split_ifs at h with hn
  by_cases hb : 0 ≤ Int.tmod (s.index + 1) s.num_bpts ∧ Int.tmod (s.index + 1) s.num_bpts < MAX_BPTS
  · obtain ⟨h0, h1⟩ := hb
    simp only [readArr_of_mem _ h0 h1, writeArr_of_mem _ _ h0 h1, Option.bind_eq_bind,
      Option.some_bind, Function.update_same, Option.pure_def, Option.some.injEq] at h
    exact ⟨hn, h0, h1, h.symm⟩
  · exfalso
    simp [readArr, hb] at h

theorem preBlend_eq_some {s s1 : GendyOscillator} {dt r1 r2 : ℚ}
    (h : s.preBlend dt r1 r2 = some s1) :
    (1 ≤ s.phase ∧ ({ s with last_flag := false } : GendyOscillator).wrapTick dt r1 r2 = some s1) ∨
      (s.phase < 1 ∧ s1 = { s with last_flag := false }) := by
  unfold GendyOscillator.preBlend at h
  by_cases hp : 1 ≤ s.phase
  · left
    simp only [hp, if_true] at h
    exact ⟨hp, h⟩
  · right
    simp only [hp, if_false, Option.some.injEq] at h
    exact ⟨not_le.mp hp, h.symm⟩

theorem blend_eq_some {s s2 : GendyOscillator} (h : s.blend = some s2) :
    s2 = { s with g_amp := s2.g_amp, g_amp_next := s2.g_amp_next, amp_out := s2.amp_out } ∧
      (s.GRAN_ON = false →
        s2.amp_out = ((1 - s.phase) * s.amp) + (s.phase * s.amp_next)) := by
  unfold GendyOscillator.blend at h
  split_ifs at h with hg
  · simp only [Option.bind_eq_bind, Option.pure_def, Option.bind_eq_some,
      Option.some.injEq] at h
    obtain ⟨e, -, x, -, e2, -, x2, -, rfl⟩ := h
    exact ⟨rfl, fun hf => absurd hg (by simp [hf])⟩
  · have h2 := Option.some.inj h
    subst h2
    exact ⟨rfl, fun _ => rfl⟩

theorem process_eq_some {s s' : GendyOscillator} {dt r1 r2 : ℚ}
    (h : s.process dt r1 r2 = some s') :
    ∃ s1 s2, s.preBlend dt r1 r2 = some s1 ∧ s1.blend = some s2 ∧ s' = s2.advance := by
  unfold GendyOscillator.process at h
  simp only [Option.bind_eq_bind, Option.pure_def, Option.bind_eq_some, Option.some.injEq] at h
  obtain ⟨s1, h1, s2, h2, h3⟩ := h
  exact ⟨s1, s2, h1, h2, h3.symm⟩

/-- The state after a defined wrap tick, field by field. -/
theorem process_wrap_fields {s s' : GendyOscillator} {dt r1 r2 : ℚ}
    (h : s.process dt r1 r2 = some s') (hp : 1 ≤ s.phase) :
    s.num_bpts ≠ 0 ∧ 0 ≤ s'.index ∧ s'.index < MAX_BPTS ∧
      s'.index = Int.tmod (s.index + 1) s.num_bpts ∧
      s'.last_flag = decide (s'.index = s.num_bpts - 1) ∧
      s'.amps = Function.update s.amps s'.index
        (GendyOscillator.wrap (s.amps s'.index + s.max_amp_step * r1) (-1) 1) ∧
      s'.durs = Function.update s.durs s'.index
        (GendyOscillator.wrap (s.durs s'.index + s.max_dur_step * r2) (1 / 2) (3 / 2)) ∧
      s'.amp = s.amp_next ∧ s'.amp_next = s'.amps s'.index ∧ s'.rate = s'.durs s'.index ∧
      s'.speed = ((((s.max_freq - s.min_freq : Int) : ℚ) * s'.durs s'.index
        + (s.min_freq : ℚ)) * dt) * (s.num_bpts : ℚ) * s.freq_mul ∧
      s'.phase = s.phase - 1 + s'.speed ∧
      s'.num_bpts = s.num_bpts := by
  obtain ⟨s1, s2, h1, h2, rfl⟩ := process_eq_some h
  rcases preBlend_eq_some h1 with ⟨-, hw⟩ | ⟨hlt, -⟩
  · obtain ⟨hn, hi0, hi1, rfl⟩ := wrapTick_eq_some hw
    obtain ⟨hb, -⟩ := blend_eq_some h2
    rw [hb]
    simp only [GendyOscillator.advance, Function.update_same]
    exact ⟨hn, hi0, hi1, by trivial⟩
  · exact absurd hp (not_le.mpr hlt)

/-- The state after a defined tick entered with `phase < 1`. -/
theorem process_nowrap_fields {s s' : GendyOscillator} {dt r1 r2 : ℚ}
    (h : s.process dt r1 r2 = some s') (hp : s.phase < 1) :
    s'.index = s.index ∧ s'.last_flag = false ∧ s'.amps = s.amps ∧ s'.durs = s.durs ∧
      s'.amp = s.amp ∧ s'.amp_next = s.amp_next ∧ s'.speed = s.speed ∧
      s'.phase = s.phase + s.speed ∧ s'.num_bpts = s.num_bpts := by
  obtain ⟨s1, s2, h1, h2, rfl⟩ := process_eq_some h
  rcases preBlend_eq_some h1 with ⟨hge, -⟩ | ⟨-, rfl⟩
  · exact absurd hge (not_le.mpr hp)
  · obtain ⟨hb, -⟩ := blend_eq_some h2
    rw [hb]
    simp only [GendyOscillator.advance]
    trivial

/-! ### Oscillator: boundary policy and walk (C1) -/

/-- A tick with the granular overlay off is defined whenever `num_bpts` is in
`1 .. MAX_BPTS` and `index` is not negative. -/
theorem process_defined_of_gran_off (s : GendyOscillator) (dt r1 r2 : ℚ)
    (hg : s.GRAN_ON = false) (hn : 1 ≤ s.num_bpts) (hm : s.num_bpts ≤ MAX_BPTS)
    (hi : 0 ≤ s.index) : ∃ s', s.process dt r1 r2 = some s' := by
  have hb : ∀ m : GendyOscillator, m.GRAN_ON = false → ∃ m', m.blend = some m' := by
    intro m hm'
    simp [GendyOscillator.blend, hm']
  by_cases hp : 1 ≤ s.phase
  · have h0 : 0 ≤ Int.tmod (s.index + 1) s.num_bpts := Int.tmod_nonneg _ (by omega)
    have h1 : Int.tmod (s.index + 1) s.num_bpts < MAX_BPTS :=
      lt_of_lt_of_le (Int.tmod_lt_of_pos _ (by omega)) hm
    have hn0 : s.num_bpts ≠ 0 := by omega
    simp only [GendyOscillator.process, GendyOscillator.preBlend, hp, if_true,
      GendyOscillator.wrapTick, hn0, if_false, readArr_of_mem _ h0 h1,
      writeArr_of_mem _ _ h0 h1, Option.bind_eq_bind, Option.some_bind, Option.pure_def,
      GendyOscillator.blend, hg, Bool.false_eq_true]
    exact ⟨_, rfl⟩
  · simp only [GendyOscillator.process, GendyOscillator.preBlend, hp, if_false,
      Option.bind_eq_bind, Option.some_bind, Option.pure_def,
      GendyOscillator.blend, hg, Bool.false_eq_true]
    exact ⟨_, rfl⟩

theorem plainOsc_tick : plainOsc.process (1 / 48000) 0 0 = some plainOsc1 := by
  obtain ⟨s', h⟩ := process_defined_of_gran_off plainOsc (1 / 48000) 0 0 rfl
    (by decide) (by decide) (by decide)
  unfold plainOsc1
  rw [h]
  rfl

/-- C1: `GendyOscillator::wrap(in, lb, ub)` with `lb <= ub` returns `ub` when
`in > ub`, `lb` when `in < lb` and `in` otherwise; after every defined wrap tick
of `process` (entered with `phase >= 1`), whatever the state, the step limits
and the random draws, the mutated entries satisfy `-1 <= amps[index] <= 1` and
`0.5 <= durs[index] <= 1.5`. -/
theorem wrap_clamps_and_walk_bounded (x lb ub : ℚ) (hlu : lb ≤ ub)
    (s s' : GendyOscillator) (deltaTime r1 r2 : ℚ)
    (htick : s.process deltaTime r1 r2 = some s') (hwrap : 1 ≤ s.phase) :
    (x > ub → GendyOscillator.wrap x lb ub = ub) ∧
    (x < lb → GendyOscillator.wrap x lb ub = lb) ∧
    (lb ≤ x → x ≤ ub → GendyOscillator.wrap x lb ub = x) ∧
    (-1 ≤ s'.amps s'.index ∧ s'.amps s'.index ≤ 1) ∧
    (1 / 2 ≤ s'.durs s'.index ∧ s'.durs s'.index ≤ 3 / 2) := by
  refine ⟨?_, ?_, ?_, ?_, ?_⟩
  · intro h
    simp [GendyOscillator.wrap, h]
  · intro h
    have : ¬ x > ub := not_lt.mpr (le_trans (le_of_lt h) hlu)
    simp [GendyOscillator.wrap, h, this]
  · intro h1 h2
    simp [GendyOscillator.wrap, not_lt.mpr h1, not_lt.mpr h2]
  · obtain ⟨-, -, -, -, -, ha, -⟩ := process_wrap_fields htick hwrap
    rw [ha, Function.update_same]
    exact wrap_mem _ _ _ (by norm_num)
  · obtain ⟨-, -, -, -, -, -, hd, -⟩ := process_wrap_fields htick hwrap
    rw [hd, Function.update_same]
    exact wrap_mem _ _ _ (by norm_num)

/-- Witness for C1: the first tick of `plainOsc` is a defined wrap tick, and
`wrap 2 (-1) 1` is pinned at the upper bound. -/
theorem wrap_clamps_and_walk_bounded_witness :
    ((-1 : ℚ) ≤ 1 ∧ plainOsc.process (1 / 48000) 0 0 = some plainOsc1 ∧ 1 ≤ plainOsc.phase) ∧
    GendyOscillator.wrap 2 (-1) 1 = 1 ∧
    (-1 ≤ plainOsc1.amps plainOsc1.index ∧ plainOsc1.amps plainOsc1.index ≤ 1) ∧
    (1 / 2 ≤ plainOsc1.durs plainOsc1.index ∧ plainOsc1.durs plainOsc1.index ≤ 3 / 2) :=
  have hp : (1 : ℚ) ≤ plainOsc.phase := le_of_eq rfl
  have h := wrap_clamps_and_walk_bounded 2 (-1) 1 (by norm_num) plainOsc plainOsc1
    (1 / 48000) 0 0 plainOsc_tick hp
  ⟨⟨by norm_num, plainOsc_tick, hp⟩, h.1 (by norm_num), h.2.2.2.1, h.2.2.2.2⟩

/-! ### Oscillator: cadence of `last_flag` (C2) -/

theorem setControls_phase (s : GendyOscillator) (c : Controls) :
    (s.setControls c).phase = s.phase := rfl

theorem setControls_index (s : GendyOscillator) (c : Controls) :
    (s.setControls c).index = s.index := rfl

theorem setControls_num_bpts (s : GendyOscillator) (c : Controls) :
    (s.setControls c).num_bpts = c.num_bpts := rfl

theorem run_cons_eq_some {s : GendyOscillator} {t : Tick} {ts : List Tick}
    {tr : List (GendyOscillator × GendyOscillator)} (h : s.run (t :: ts) = some tr) :
    ∃ s1 rest, (s.setControls t.controls).process t.deltaTime t.r1 t.r2 = some s1 ∧
      s1.run ts = some rest ∧ tr = (s.setControls t.controls, s1) :: rest := by
  simp only [GendyOscillator.run, Option.bind_eq_bind, Option.pure_def, Option.bind_eq_some,
    Option.some.injEq] at h
  obtain ⟨s1, h1, rest, h2, h3⟩ := h
  exact ⟨s1, rest, h1, h2, h3.symm⟩

theorem wrapCount_cons (p : GendyOscillator × GendyOscillator)
    (l : List (GendyOscillator × GendyOscillator)) :
    wrapCount (p :: l) = (if 1 ≤ p.1.phase then 1 else 0) + wrapCount l := by
  unfold wrapCount
  by_cases h : 1 ≤ p.1.phase
  · simp [List.filter_cons, h, Nat.add_comm]
  · simp [List.filter_cons, h]

theorem flagCount_cons (p : GendyOscillator × GendyOscillator)
    (l : List (GendyOscillator × GendyOscillator)) :
    flagCount (p :: l) = (if p.2.last_flag = true then 1 else 0) + flagCount l := by
  unfold flagCount
  by_cases h : p.2.last_flag = true
  · simp [List.filter_cons, h, Nat.add_comm]
  · simp [List.filter_cons, h]

/-- Counting lemma behind the cadence of `last_flag`: with the cursor at `i`
(`0 <= i < n`), `w` further increments modulo `n` pass the value `n - 1`
exactly `(i + 1 + w) / n - (i + 1) / n` times. -/
theorem flag_count_step (n i w : Int) (hn : 2 ≤ n) (hi0 : 0 ≤ i) (hi1 : i < n) :
    (if (i + 1) % n = n - 1 then (1 : Int) else 0)
        + (((i + 1) % n + 1 + w) / n - ((i + 1) % n + 1) / n)
      = (i + 1 + (1 + w)) / n - (i + 1) / n := by
  rcases lt_or_eq_of_le (show i + 1 ≤ n by omega) with hlt | heq
  · have hmod : (i + 1) % n = i + 1 := Int.emod_eq_of_lt (by omega) hlt
    have hz : (i + 1) / n = 0 := Int.ediv_eq_zero_of_lt (by omega) hlt
    rw [hmod, hz]
    by_cases hlast : i + 1 = n - 1
    · have h2 : i + 1 + 1 = n := by omega
      have hone : (i + 1 + 1) / n = 1 := by rw [h2]; exact Int.ediv_self (by omega)
      rw [if_pos hlast, hone]
      have : i + 1 + 1 + w = i + 1 + (1 + w) := by ring
      rw [this]
      ring
    · have hz2 : (i + 1 + 1) / n = 0 := Int.ediv_eq_zero_of_lt (by omega) (by omega)
      rw [if_neg hlast, hz2]
      have : i + 1 + 1 + w = i + 1 + (1 + w) := by ring
      rw [this]
      ring
  · have hmod : (i + 1) % n = 0 := by rw [heq]; exact Int.emod_self
    have hne : ¬ ((0 : Int) = n - 1) := by omega
    have h1 : (0 + 1 : Int) / n = 0 := Int.ediv_eq_zero_of_lt (by omega) (by omega)
    have hs : (i + 1) / n = 1 := by rw [heq]; exact Int.ediv_self (by omega)
    have hbig : (i + 1 + (1 + w)) / n = 1 + (1 + w) / n := by
      rw [heq]
      have := Int.add_mul_ediv_left (1 + w) 1 (show n ≠ 0 by omega)
      rw [mul_one] at this
      rw [show n + (1 + w) = 1 + w + n by ring, this]
      ring
    rw [hmod, if_neg hne, h1, hs, hbig]
    have : (0 + 1 + w : Int) = 1 + w := by ring
    rw [this]
    ring

/-- Flags and wraps of a run with `num_bpts` held at `n`. -/
theorem run_flag_count (n : Int) (hn : 2 ≤ n) :
    ∀ (ts : List Tick) (s : GendyOscillator) (tr : List (GendyOscillator × GendyOscillator)),
      0 ≤ s.index → s.index < n → (∀ t ∈ ts, t.controls.num_bpts = n) →
      s.run ts = some tr →
      ((flagCount tr : Int) = (s.index + 1 + (wrapCount tr : Int)) / n - (s.index + 1) / n) ∧
        ∀ p ∈ tr, (p.2.last_flag = true ↔ (1 ≤ p.1.phase ∧ p.2.index = n - 1)) ∧
          (p.1.phase < 1 → p.2.last_flag = false) := by
  intro ts
  induction ts with
  | nil =>
    intro s tr _ _ _ h
    simp only [GendyOscillator.run, Option.some.injEq] at h
    subst h
    simp [flagCount, wrapCount]
  | cons t ts ih =>
    intro s tr hi0 hi1 hfix h
    obtain ⟨s1, rest, hproc, hrest, rfl⟩ := run_cons_eq_some h
    have hnb : (s.setControls t.controls).num_bpts = n :=
      hfix t (List.mem_cons_self _ _)
    have hfix2 : ∀ u ∈ ts, u.controls.num_bpts = n :=
      fun u hu => hfix u (List.mem_cons_of_mem _ hu)
    by_cases hp : 1 ≤ (s.setControls t.controls).phase
    · obtain ⟨-, -, -, hidx, hflag, -⟩ := process_wrap_fields hproc hp
      rw [hnb, setControls_index] at hidx
      rw [hnb] at hflag
      have hemod : Int.tmod (s.index + 1) n = (s.index + 1) % n :=
        Int.tmod_eq_emod (by omega) (by omega)
      rw [hemod] at hidx
      have h1lo : 0 ≤ s1.index := by rw [hidx]; exact Int.emod_nonneg _ (by omega)
      have h1hi : s1.index < n := by rw [hidx]; exact Int.emod_lt_of_pos _ (by omega)
      obtain ⟨ihc, ihp⟩ := ih s1 rest h1lo h1hi hfix2 hrest
      refine ⟨?_, ?_⟩
      · rw [flagCount_cons, wrapCount_cons]
        simp only [hp, if_true, hflag, decide_eq_true_eq]
        push_cast
        rw [ihc, hidx]
        have := flag_count_step n s.index (wrapCount rest) hn hi0 hi1
        exact this
      · intro p hpm
        rcases List.mem_cons.mp hpm with rfl | hpm
        · refine ⟨?_, fun hlt => absurd hp (not_le.mpr hlt)⟩
          simp only [hflag, decide_eq_true_eq]
          exact ⟨fun h => ⟨hp, h⟩, fun h => h.2⟩
        · exact ihp p hpm
    · have hlt : (s.setControls t.controls).phase < 1 := not_le.mp hp
      obtain ⟨hidx, hflag, -⟩ := process_nowrap_fields hproc hlt
      rw [setControls_index] at hidx
      obtain ⟨ihc, ihp⟩ := ih s1 rest (by rw [hidx]; exact hi0) (by rw [hidx]; exact hi1)
        hfix2 hrest
      refine ⟨?_, ?_⟩
      · rw [flagCount_cons, wrapCount_cons]
        simp only [hp, if_false, hflag, Bool.false_eq_true, zero_add]
        rw [ihc, hidx]
      · intro p hpm
        rcases List.mem_cons.mp hpm with rfl | hpm
        · refine ⟨?_, fun _ => hflag⟩
          simp only [hflag, Bool.false_eq_true, false_iff, not_and]
          intro h
          exact absurd h hp
        · exact ihp p hpm

/-- C2: with `num_bpts` held at `n >= 2` and `0 <= index < n`, a run of ticks
that contains exactly `n` wrap ticks (ticks entered with `phase >= 1`) has
exactly one tick that leaves `last_flag` true; a tick leaves `last_flag` true
exactly when it is a wrap tick whose new `index` is `n - 1`, and every tick
entered with `phase < 1` leaves `last_flag` false. -/
theorem last_flag_once_per_cycle (n : Int) (hn : 2 ≤ n) (s : GendyOscillator)
    (ts : List Tick) (tr : List (GendyOscillator × GendyOscillator))
    (hi0 : 0 ≤ s.index) (hi1 : s.index < n)
    (hfix : ∀ t ∈ ts, t.controls.num_bpts = n)
    (hrun : s.run ts = some tr) (hwraps : (wrapCount tr : Int) = n) :
    flagCount tr = 1 ∧
      (∀ p ∈ tr, p.2.last_flag = true ↔ (1 ≤ p.1.phase ∧ p.2.index = n - 1)) ∧
      (∀ p ∈ tr, p.1.phase < 1 → p.2.last_flag = false) := by
  obtain ⟨hc, hp⟩ := run_flag_count n hn ts s tr hi0 hi1 hfix hrun
  refine ⟨?_, fun p hpm => (hp p hpm).1, fun p hpm => (hp p hpm).2⟩
  rw [hwraps] at hc
  have hadd : (s.index + 1 + n) / n = (s.index + 1) / n + 1 := by
    have := Int.add_mul_ediv_left (s.index + 1) 1 (show n ≠ 0 by omega)
    rw [mul_one] at this
    exact this
  rw [hadd] at hc
  have : (flagCount tr : Int) = 1 := by rw [hc]; ring
  exact_mod_cast this
theorem fastOsc1_tick : plainOsc.process (1 / 1030) 0 0 = some fastOsc1 := by
  obtain ⟨s', h⟩ := process_defined_of_gran_off plainOsc (1 / 1030) 0 0 rfl
    (by decide) (by decide) (by decide)
  unfold fastOsc1
  rw [h]
  rfl

theorem fastOsc1_phase : fastOsc1.phase = 1 := by
  obtain ⟨-, -, -, hidx, -, -, hd, -, -, -, hs, hph, -⟩ :=
    process_wrap_fields fastOsc1_tick (le_of_eq rfl)
  have hi : fastOsc1.index = 1 := by rw [hidx]; decide
  rw [hi] at hd hs
  rw [hph, hs, hd]
  simp [plainOsc, plainControls, GendyOscillator.setControls, GendyOscillator.init,
    GendyOscillator.wrap]
  norm_num

theorem fastOsc2_tick :
    (fastOsc1.setControls plainControls).process (1 / 1030) 0 0 = some fastOsc2 := by
  obtain ⟨-, hi0, -⟩ := process_wrap_fields fastOsc1_tick (le_of_eq rfl)
  obtain ⟨s', h⟩ := process_defined_of_gran_off (fastOsc1.setControls plainControls)
    (1 / 1030) 0 0 rfl (by decide) (by decide) hi0
  unfold fastOsc2
  rw [h]
  rfl

theorem fastTrace_run : (GendyOscillator.init zeroTable).run [fastTick, fastTick]
    = some fastTrace := by
  have h1 : ((GendyOscillator.init zeroTable).setControls fastTick.controls).process
      fastTick.deltaTime fastTick.r1 fastTick.r2 = some fastOsc1 := fastOsc1_tick
  have h2 : (fastOsc1.setControls fastTick.controls).process
      fastTick.deltaTime fastTick.r1 fastTick.r2 = some fastOsc2 := fastOsc2_tick
  simp only [GendyOscillator.run, h1, h2, Option.bind_eq_bind, Option.some_bind,
    Option.pure_def]
  rfl

theorem fastTrace_wraps : (wrapCount fastTrace : Int) = 2 := by
  have h1 : (1 : ℚ) ≤ plainOsc.phase := le_of_eq rfl
  have h2 : (1 : ℚ) ≤ (fastOsc1.setControls plainControls).phase := by
    rw [setControls_phase, fastOsc1_phase]
  simp [fastTrace, wrapCount_cons, h1, h2, wrapCount]

/-- Witness for C2: two breakpoints, two full-speed ticks from the constructed
oscillator; both ticks wrap and exactly one of them raises `last_flag`. -/
theorem last_flag_once_per_cycle_witness :
    ((2 : Int) ≤ 2 ∧ (GendyOscillator.init zeroTable).run [fastTick, fastTick] = some fastTrace ∧
      (wrapCount fastTrace : Int) = 2) ∧ flagCount fastTrace = 1 :=
  ⟨⟨le_refl _, fastTrace_run, fastTrace_wraps⟩,
    (last_flag_once_per_cycle 2 (le_refl _) (GendyOscillator.init zeroTable)
      [fastTick, fastTick] fastTrace (by decide) (by decide)
      (by intro t ht; simp at ht; subst ht; rfl) fastTrace_run fastTrace_wraps).1⟩

/-! ### Wavetable lookup at the upper boundary (C3) -/

/-- C3 (the code departs from the claim): for `x` in `[0, 1)` with
`x * TABLE_SIZE` strictly between `TABLE_SIZE - 1` and `TABLE_SIZE`,
`Wavetable::get(x)` applies the subscripts `TABLE_SIZE - 1` and `TABLE_SIZE`
to `table`: the upper subscript is not reduced modulo the table length, so
the read leaves the array and the lookup has no defined value. -/
theorem get_reads_past_table_end (w : Wavetable) (x : ℚ)
    (hlo : ((TABLE_SIZE - 1 : Int) : ℚ) < x * (TABLE_SIZE : ℚ)) (hhi : x < 1) :
    Wavetable.getSubscripts x = [TABLE_SIZE - 1, TABLE_SIZE] ∧ w.get x = none := by
  have hN : ((TABLE_SIZE : Int) : ℚ) = 2048 := by norm_num [TABLE_SIZE]
  have hup : x * (TABLE_SIZE : ℚ) < ((TABLE_SIZE : Int) : ℚ) := by
    rw [hN]; linarith
  have hfl : Int.floor (x * (TABLE_SIZE : ℚ)) = TABLE_SIZE - 1 := by
    rw [Int.floor_eq_iff]
    refine ⟨le_of_lt hlo, ?_⟩
    push_cast
    push_cast at hup
    linarith
  have hce : Int.ceil (x * (TABLE_SIZE : ℚ)) = TABLE_SIZE := by
    rw [Int.ceil_eq_iff]
    refine ⟨?_, le_of_lt hup⟩
    push_cast at hlo
    linarith
  refine ⟨?_, ?_⟩
  · simp only [Wavetable.getSubscripts, Wavetable.indexSubscripts, hfl, hce]
  · have hr : readArr TABLE_SIZE w.table TABLE_SIZE = none := by
      simp [readArr]
    have hl : readArr TABLE_SIZE w.table (TABLE_SIZE - 1)
        = some (w.table (TABLE_SIZE - 1)) := by
      simp [readArr, TABLE_SIZE]
    simp only [Wavetable.get, Wavetable.index, hfl, hce, hr, hl, Option.bind_eq_bind,
      Option.some_bind, Option.none_bind]

/-- Witness for C3 at `x = 4095/4096`, where `x * TABLE_SIZE = 2047.5`: the
subscripts are 2047 and 2048 and the lookup is undefined. -/
theorem get_reads_past_table_end_witness :
    ((((TABLE_SIZE - 1 : Int) : ℚ) < (4095 / 4096 : ℚ) * (TABLE_SIZE : ℚ)) ∧
      (4095 / 4096 : ℚ) < 1) ∧
    Wavetable.getSubscripts (4095 / 4096) = [2047, 2048] ∧
    zeroTable.get (4095 / 4096) = none :=
  have h1 : ((TABLE_SIZE - 1 : Int) : ℚ) < (4095 / 4096 : ℚ) * (TABLE_SIZE : ℚ) := by
    norm_num [TABLE_SIZE]
  have h2 : (4095 / 4096 : ℚ) < 1 := by norm_num
  ⟨⟨h1, h2⟩, get_reads_past_table_end zeroTable (4095 / 4096) h1 h2⟩

/-! ### Oscillator: range of the stored phase (C4) -/

/-- The state between the wrap block and the output computation. -/
theorem preBlend_fields {s m : GendyOscillator} {dt r1 r2 : ℚ}
    (h : s.preBlend dt r1 r2 = some m) :
    (1 ≤ s.phase → m.phase = s.phase - 1 ∧ m.amp = s.amp_next ∧
      m.amp_next = GendyOscillator.wrap
        (s.amps (Int.tmod (s.index + 1) s.num_bpts) + s.max_amp_step * r1) (-1) 1) ∧
    (s.phase < 1 → m.phase = s.phase ∧ m.amp = s.amp ∧ m.amp_next = s.amp_next) ∧
    m.GRAN_ON = s.GRAN_ON := by
  rcases preBlend_eq_some h with ⟨hge, hw⟩ | ⟨hlt, rfl⟩
  · obtain ⟨-, -, -, rfl⟩ := wrapTick_eq_some hw
    exact ⟨fun _ => ⟨rfl, rfl, rfl⟩, fun hlt => absurd hge (not_le.mpr hlt), rfl⟩
  · exact ⟨fun hge => absurd hge (not_le.mpr hlt), fun _ => ⟨rfl, rfl, rfl⟩, rfl⟩

/-- Invariant of the states reachable with recomputed speeds in `[0, 1]`. -/
theorem unit_speed_invariant {s : GendyOscillator} (hr : ReachableUnitSpeed s) :
    (0 ≤ s.phase ∧ s.phase < 2) ∧ (0 ≤ s.speed ∧ s.speed ≤ 1) ∧
      (-1 ≤ s.amp ∧ s.amp ≤ 1) ∧ (-1 ≤ s.amp_next ∧ s.amp_next ≤ 1) := by
  induction hr with
  | init sine =>
    simp only [GendyOscillator.init]
    norm_num
  | host s c _ ih => exact ih
  | tick s s' dt r1 r2 _ htick hspeed ih =>
    obtain ⟨⟨hp0, hp2⟩, ⟨hs0, hs1⟩, ha, hb⟩ := ih
    by_cases hp : 1 ≤ s.phase
    · obtain ⟨-, -, -, -, -, hamps, -, hamp, hnext, -, -, hph, -⟩ :=
        process_wrap_fields htick hp
      obtain ⟨hs0', hs1'⟩ := hspeed hp
      refine ⟨⟨by rw [hph]; linarith, by rw [hph]; linarith⟩, ⟨hs0', hs1'⟩,
        by rw [hamp]; exact hb, ?_⟩
      rw [hnext, hamps, Function.update_same]
      exact wrap_mem _ _ _ (by norm_num)
    · have hlt : s.phase < 1 := not_le.mp hp
      obtain ⟨-, -, -, -, hamp, hnext, hsp, hph, -⟩ := process_nowrap_fields htick hlt
      refine ⟨⟨by rw [hph]; linarith, by rw [hph]; linarith⟩,
        ⟨by rw [hsp]; exact hs0, by rw [hsp]; exact hs1⟩,
        by rw [hamp]; exact ha, by rw [hnext]; exact hb⟩

/-- Under recomputed speeds in `[0, 1]` the phase used by the output
interpolation lies in `[0, 1)`. -/
theorem unit_speed_preBlend_phase {s m : GendyOscillator} {dt r1 r2 : ℚ}
    (hr : ReachableUnitSpeed s) (hm : s.preBlend dt r1 r2 = some m) :
    0 ≤ m.phase ∧ m.phase < 1 := by
  obtain ⟨⟨hp0, hp2⟩, -⟩ := unit_speed_invariant hr
  obtain ⟨hw, hn, -⟩ := preBlend_fields hm
  by_cases hp : 1 ≤ s.phase
  · rw [(hw hp).1]
    exact ⟨by linarith, by linarith⟩
  · have hlt : s.phase < 1 := not_le.mp hp
    rw [(hn hlt).1]
    exact ⟨hp0, hlt⟩

theorem fastOsc1_speed : fastOsc1.speed = 1 := by
  obtain ⟨-, -, -, hidx, -, -, hd, -, -, -, hs, -⟩ :=
    process_wrap_fields fastOsc1_tick (le_of_eq rfl)
  have hi : fastOsc1.index = 1 := by rw [hidx]; decide
  rw [hi] at hd hs
  rw [hs, hd]
  simp [plainOsc, plainControls, GendyOscillator.setControls, GendyOscillator.init,
    GendyOscillator.wrap]
  norm_num

theorem plainOsc_reachable : ReachableUnitSpeed plainOsc :=
  ReachableUnitSpeed.host _ plainControls (ReachableUnitSpeed.init zeroTable)

theorem fastOsc1_reachable : ReachableUnitSpeed fastOsc1 :=
  ReachableUnitSpeed.tick plainOsc fastOsc1 (1 / 1030) 0 0 plainOsc_reachable fastOsc1_tick
    (fun _ => by rw [fastOsc1_speed]; norm_num)

/-- C4 as stated fails: the constructed oscillator stores `phase = 1`, and
after one tick whose recomputed `speed` is 1 the stored `phase` is 1 again;
both states are reachable and neither has `phase < 1`. -/
theorem stored_phase_reaches_one :
    (Reachable (GendyOscillator.init zeroTable) ∧
      ¬ (0 ≤ (GendyOscillator.init zeroTable).phase ∧
        (GendyOscillator.init zeroTable).phase < 1)) ∧
    (Reachable fastOsc1 ∧ ¬ (0 ≤ fastOsc1.phase ∧ fastOsc1.phase < 1)) := by
  refine ⟨⟨Reachable.init zeroTable, ?_⟩, ⟨?_, ?_⟩⟩
  · simp [GendyOscillator.init]
  · exact Reachable.tick plainOsc fastOsc1 (1 / 1030) 0 0
      (Reachable.host _ plainControls (Reachable.init zeroTable)) fastOsc1_tick
  · rw [fastOsc1_phase]
    norm_num

/-- C4 (amended): in every state reachable from the constructed oscillator by
host writes and ticks whose recomputed `speed` lies in `[0, 1]`, the stored
phase satisfies `0 <= phase < 2`; and in every tick from such a state the
phase after the conditional subtraction of 1.0, the one used by the output
interpolation, satisfies `0 <= phase < 1`. -/
theorem phase_bounds_unit_speed (s : GendyOscillator) (hr : ReachableUnitSpeed s) :
    (0 ≤ s.phase ∧ s.phase < 2) ∧
      ∀ (deltaTime r1 r2 : ℚ) (m : GendyOscillator),
        s.preBlend deltaTime r1 r2 = some m → 0 ≤ m.phase ∧ m.phase < 1 := by
  exact ⟨(unit_speed_invariant hr).1, fun _ _ _ _ hm => unit_speed_preBlend_phase hr hm⟩

/-- Witness for C4 (amended): the state after one full-speed tick. -/
theorem phase_bounds_unit_speed_witness :
    ReachableUnitSpeed fastOsc1 ∧ (0 ≤ fastOsc1.phase ∧ fastOsc1.phase < 2) :=
  ⟨fastOsc1_reachable, (phase_bounds_unit_speed fastOsc1 fastOsc1_reachable).1⟩

/-! ### Oscillator: recomputed speed and plain output (C5, C6) -/

/-- C5: after every defined wrap tick of `process`,
`speed = ((max_freq - min_freq) * durs[index] + min_freq) * deltaTime * num_bpts * freq_mul`
for the new `index`, the clamped duration is at least 0.5, and `speed` is
strictly positive whenever `deltaTime > 0`, `freq_mul > 0`, `num_bpts >= 2`
and `0 < min_freq <= max_freq`. -/
theorem speed_formula_and_positive (s s' : GendyOscillator) (deltaTime r1 r2 : ℚ)
    (htick : s.process deltaTime r1 r2 = some s') (hwrap : 1 ≤ s.phase) :
    s'.speed = ((((s.max_freq - s.min_freq : Int) : ℚ) * s'.durs s'.index
        + (s.min_freq : ℚ)) * deltaTime) * (s.num_bpts : ℚ) * s.freq_mul ∧
      1 / 2 ≤ s'.durs s'.index ∧
      (0 < deltaTime → 0 < s.freq_mul → 2 ≤ s.num_bpts → 0 < s.min_freq →
        s.min_freq ≤ s.max_freq → 0 < s'.speed) := by
  obtain ⟨-, -, -, -, -, -, hd, -, -, -, hs, -⟩ := process_wrap_fields htick hwrap
  have hdur : 1 / 2 ≤ s'.durs s'.index := by
    rw [hd, Function.update_same]
    exact (wrap_mem _ _ _ (by norm_num)).1
  refine ⟨hs, hdur, ?_⟩
  intro hdt hfm hnb hmin hmax
  rw [hs]
  have h1 : (0 : ℚ) ≤ ((s.max_freq - s.min_freq : Int) : ℚ) := by
    exact_mod_cast (show (0 : Int) ≤ s.max_freq - s.min_freq by omega)
  have h2 : (0 : ℚ) < (s.min_freq : ℚ) := by exact_mod_cast hmin
  have h3 : (0 : ℚ) < (s.num_bpts : ℚ) := by
    exact_mod_cast (show (0 : Int) < s.num_bpts by omega)
  have h4 : (0 : ℚ) ≤ ((s.max_freq - s.min_freq : Int) : ℚ) * s'.durs s'.index :=
    mul_nonneg h1 (by linarith)
  have h5 : (0 : ℚ) < ((s.max_freq - s.min_freq : Int) : ℚ) * s'.durs s'.index
      + (s.min_freq : ℚ) := by linarith
  exact mul_pos (mul_pos (mul_pos h5 hdt) h3) hfm

/-- Witness for C5: the first tick of `plainOsc` at 48 kHz. -/
theorem speed_formula_and_positive_witness :
    (plainOsc.process (1 / 48000) 0 0 = some plainOsc1 ∧ 1 ≤ plainOsc.phase) ∧
      0 < plainOsc1.speed :=
  have hp : (1 : ℚ) ≤ plainOsc.phase := le_of_eq rfl
  ⟨⟨plainOsc_tick, hp⟩,
    (speed_formula_and_positive plainOsc plainOsc1 (1 / 48000) 0 0 plainOsc_tick hp).2.2
      (by norm_num) (by norm_num [plainOsc, plainControls, GendyOscillator.setControls])
      (by decide) (by decide) (by decide)⟩

/-- A convex blend of two values in `[-1, 1]` lies in `[-1, 1]`. -/
theorem blend_mem_unit (p a b : ℚ) (hp0 : 0 ≤ p) (hp1 : p ≤ 1) (ha0 : -1 ≤ a) (ha1 : a ≤ 1)
    (hb0 : -1 ≤ b) (hb1 : b ≤ 1) :
    -1 ≤ ((1 - p) * a) + (p * b) ∧ ((1 - p) * a) + (p * b) ≤ 1 := by
  have hq : 0 ≤ 1 - p := by linarith
  constructor
  · nlinarith [mul_nonneg hq (show 0 ≤ a + 1 by linarith),
      mul_nonneg hp0 (show 0 ≤ b + 1 by linarith)]
  · nlinarith [mul_nonneg hq (show 0 ≤ 1 - a by linarith),
      mul_nonneg hp0 (show 0 ≤ 1 - b by linarith)]

/-- C6: with the granular overlay disabled, in every state reachable from the
constructed oscillator with every recomputed `speed` in `[0, 1]`, a tick
computes `amp_out = (1 - phase) * amp + phase * amp_next` with
`0 <= phase < 1` and `amp`, `amp_next` in `[-1, 1]`, so the value returned by
`out()` lies in `[-1, 1]`. -/
theorem plain_output_in_unit_range (s s' : GendyOscillator) (deltaTime r1 r2 : ℚ)
    (hr : ReachableUnitSpeed s) (hg : s.GRAN_ON = false)
    (htick : s.process deltaTime r1 r2 = some s') :
    ∃ m, s.preBlend deltaTime r1 r2 = some m ∧
      s'.out = ((1 - m.phase) * m.amp) + (m.phase * m.amp_next) ∧
      (0 ≤ m.phase ∧ m.phase < 1) ∧ (-1 ≤ m.amp ∧ m.amp ≤ 1) ∧
      (-1 ≤ m.amp_next ∧ m.amp_next ≤ 1) ∧ (-1 ≤ s'.out ∧ s'.out ≤ 1) := by
  obtain ⟨m, s2, hm, hb, rfl⟩ := process_eq_some htick
  obtain ⟨-, -, ha, hn⟩ := unit_speed_invariant hr
  obtain ⟨hw, hnw, hgm⟩ := preBlend_fields hm
  have hph := unit_speed_preBlend_phase hr hm
  have hout : s2.advance.out = ((1 - m.phase) * m.amp) + (m.phase * m.amp_next) := by
    have := (blend_eq_some hb).2 (by rw [hgm]; exact hg)
    simpa [GendyOscillator.out, GendyOscillator.advance] using this
  have hamp : (-1 ≤ m.amp ∧ m.amp ≤ 1) ∧ (-1 ≤ m.amp_next ∧ m.amp_next ≤ 1) := by
    by_cases hp : 1 ≤ s.phase
    · obtain ⟨-, h1, h2⟩ := hw hp
      rw [h1, h2]
      exact ⟨hn, wrap_mem _ _ _ (by norm_num)⟩
    · obtain ⟨-, h1, h2⟩ := hnw (not_le.mp hp)
      rw [h1, h2]
      exact ⟨ha, hn⟩
  refine ⟨m, hm, hout, hph, hamp.1, hamp.2, ?_⟩
  rw [hout]
  exact blend_mem_unit _ _ _ hph.1 (le_of_lt hph.2) hamp.1.1 hamp.1.2 hamp.2.1 hamp.2.2

/-- Witness for C6: the first tick of the constructed oscillator after the
host switched the overlay off. -/
theorem plain_output_in_unit_range_witness :
    (ReachableUnitSpeed plainOsc ∧ plainOsc.GRAN_ON = false ∧
      plainOsc.process (1 / 1030) 0 0 = some fastOsc1) ∧
    (-1 ≤ fastOsc1.out ∧ fastOsc1.out ≤ 1) :=
  ⟨⟨plainOsc_reachable, rfl, fastOsc1_tick⟩,
    (plain_output_in_unit_range plainOsc fastOsc1 (1 / 1030) 0 0 plainOsc_reachable rfl
      fastOsc1_tick).elim (fun _ h => h.2.2.2.2.2)⟩

/-! ### Stitcher: hand-off (C7) -/

theorem clamp_mem (x a b : ℚ) (h : a ≤ b) : a ≤ clamp x a b ∧ clamp x a b ≤ b := by
  unfold clamp
  exact ⟨le_max_right _ _, max_le (min_le_right _ _) h⟩

theorem truncQ_mem_of_nonneg (x : ℚ) (a b : Int) (ha : 0 ≤ a) (h0 : (a : ℚ) ≤ x)
    (h1 : x ≤ (b : ℚ)) : a ≤ truncQ x ∧ truncQ x ≤ b := by
  have hx : (0 : ℚ) ≤ x := le_trans (by exact_mod_cast ha) h0
  unfold truncQ
  rw [if_pos hx]
  exact ⟨Int.le_floor.mpr h0, Int.floor_le_floor h1 |>.trans (by rw [Int.floor_intCast])⟩

/-- The oscillator count read from the knob is between 1 and 4. -/
theorem readParams_num_oscs {O : Type} (s : Stitcher O) (p : StitcherParams O) :
    1 ≤ (s.readParams p).curr_num_oscs ∧ (s.readParams p).curr_num_oscs ≤ 4 := by
  have h := clamp_mem p.nosc 1 4 (by norm_num)
  exact truncQ_mem_of_nonneg _ 1 4 (by norm_num) (by exact_mod_cast h.1) (by exact_mod_cast h.2)

/-- A crossfading tick drives no oscillator. -/
theorem stitcher_swapping_eq_some {O R : Type} {ops : OscOps O R} {s s' : Stitcher O}
    {dt : ℚ} {p : StitcherParams O} {ra rb : R} {log : List Int}
    (hsw : s.is_swapping = true)
    (h : Stitcher.process ops s dt p ra rb = some (s', log)) :
    log = [] ∧ s'.amp_out = Stitcher.crossfade s.amp s.amp_next s.phase ∧
      s'.phase = s.phase + s.speed ∧ s'.gos = (s.readParams p).gos ∧
      s'.amp = s.amp ∧ s'.amp_next = s.amp_next ∧ s'.osc_idx = s.osc_idx ∧
      (s'.is_swapping = true ↔ s.phase + s.speed < 1) := by
  have hsw0 : (s.readParams p).is_swapping = true := hsw
  unfold Stitcher.process at h
  simp only [hsw0, if_true] at h
  split_ifs at h with hp
  · simp only [Option.some.injEq, Prod.mk.injEq] at h
    obtain ⟨rfl, rfl⟩ := h
    refine ⟨rfl, rfl, rfl, rfl, rfl, rfl, rfl, ?_⟩
    simp only [Bool.false_eq_true, false_iff, not_lt]
    exact hp
  · simp only [Option.some.injEq, Prod.mk.injEq] at h
    obtain ⟨rfl, rfl⟩ := h
    refine ⟨rfl, rfl, rfl, rfl, rfl, rfl, rfl, ?_⟩
    exact ⟨fun _ => not_le.mp hp, fun _ => rfl⟩

/-- A tick that is not crossfading on entry: the driven oscillator, and either
the hand-off or the plain continuation. -/
theorem stitcher_playing_eq_some {O R : Type} {ops : OscOps O R} {s s' : Stitcher O}
    {dt : ℚ} {p : StitcherParams O} {ra rb : R} {log : List Int}
    (hsw : s.is_swapping = false)
    (h : Stitcher.process ops s dt p ra rb = some (s', log)) :
    ∃ o, (0 ≤ s.osc_idx ∧ s.osc_idx < NUM_OSCS) ∧
      ops.process ((s.readParams p).gos s.osc_idx) dt ra = some o ∧
      (((ops.last_flag o = true ∧ s.current_stutter - 1 < 1) ∧
          ∃ n, ops.process (Function.update (s.readParams p).gos s.osc_idx o
              (Int.tmod (s.osc_idx + 1) (s.readParams p).curr_num_oscs)) dt rb = some n ∧
            log = [s.osc_idx, Int.tmod (s.osc_idx + 1) (s.readParams p).curr_num_oscs] ∧
            s' = { s.readParams p with
              gos := Function.update (Function.update (s.readParams p).gos s.osc_idx o)
                (Int.tmod (s.osc_idx + 1) (s.readParams p).curr_num_oscs) n
              amp_out := ops.out o
              amp := ops.out o
              speed := ops.speed o
              osc_idx := Int.tmod (s.osc_idx + 1) (s.readParams p).curr_num_oscs
              amp_next := ops.out n
              current_stutter := (s.readParams p).stutters
                (Int.tmod (s.osc_idx + 1) (s.readParams p).curr_num_oscs)
              phase := 0
              is_swapping := true }) ∨
        (¬ (ops.last_flag o = true ∧ s.current_stutter - 1 < 1) ∧ log = [s.osc_idx] ∧
          s' = { s.readParams p with
            gos := Function.update (s.readParams p).gos s.osc_idx o
            amp_out := ops.out o
            current_stutter :=
              if ops.last_flag o = true then s.current_stutter - 1 else s.current_stutter
            is_swapping := false })) := by
  have hsw0 : (s.readParams p).is_swapping = false := hsw
  have hidx : (s.readParams p).osc_idx = s.osc_idx := rfl
  have hcs : (s.readParams p).current_stutter = s.current_stutter := rfl
  unfold Stitcher.process at h
  simp only [hsw0, Bool.false_eq_true, if_false, Option.bind_eq_bind, Option.bind_eq_some] at h
  obtain ⟨o0, hread, o, hproc, h⟩ := h
  obtain ⟨hi0, hi1, rfl⟩ := readArr_eq_some hread
  rw [hidx] at hi0 hi1 hproc
  refine ⟨o, ⟨hi0, hi1⟩, hproc, ?_⟩
  by_cases hf : ops.last_flag o = true
  · simp only [hf, if_true, hidx, hcs] at h
    by_cases hst : s.current_stutter - 1 < 1
    · left
      simp only [hst, if_true] at h
      split_ifs at h with hz
      simp only [Option.bind_eq_bind, Option.bind_eq_some] at h
      obtain ⟨n0, hreadn, n, hprocn, st, hst2, h⟩ := h
      obtain ⟨-, -, rfl⟩ := readArr_eq_some hreadn
      obtain ⟨-, -, rfl⟩ := readArr_eq_some hst2
      simp only [Option.some.injEq, Prod.mk.injEq] at h
      obtain ⟨rfl, rfl⟩ := h
      exact ⟨⟨hf, hst⟩, n, hprocn, rfl, rfl⟩
    · right
      simp only [hst, if_false, Option.some.injEq, Prod.mk.injEq] at h
      obtain ⟨rfl, rfl⟩ := h
      refine ⟨fun hc => hst hc.2, rfl, ?_⟩
      simp only [hf, if_true, hsw0]
      rfl
  · right
    simp only [hf, Bool.false_eq_true, if_false, Option.some.injEq, Prod.mk.injEq, hidx] at h
    obtain ⟨rfl, rfl⟩ := h
    refine ⟨fun hc => hf hc.1, rfl, ?_⟩
    simp only [hf, if_false, hsw0]
    rfl
/-- A hand-off tick is defined as soon as its two oscillator calls are. -/
theorem stitcher_handoff_defined {O R : Type} (ops : OscOps O R) (s : Stitcher O)
    (dt : ℚ) (p : StitcherParams O) (ra rb : R) (o n : O)
    (hsw : s.is_swapping = false) (hi0 : 0 ≤ s.osc_idx) (hi1 : s.osc_idx < NUM_OSCS)
    (ho : ops.process ((s.readParams p).gos s.osc_idx) dt ra = some o)
    (hf : ops.last_flag o = true) (hst : s.current_stutter - 1 < 1)
    (hn : ops.process (Function.update (s.readParams p).gos s.osc_idx o
      (Int.tmod (s.osc_idx + 1) (s.readParams p).curr_num_oscs)) dt rb = some n) :
    ∃ s', Stitcher.process ops s dt p ra rb
      = some (s', [s.osc_idx, Int.tmod (s.osc_idx + 1) (s.readParams p).curr_num_oscs]) := by
  have hsw0 : (s.readParams p).is_swapping = false := hsw
  have hidx : (s.readParams p).osc_idx = s.osc_idx := rfl
  have hcs : (s.readParams p).current_stutter = s.current_stutter := rfl
  obtain ⟨hc1, hc4⟩ := readParams_num_oscs s p
  have hj0 : 0 ≤ Int.tmod (s.osc_idx + 1) (s.readParams p).curr_num_oscs :=
    Int.tmod_nonneg _ (by omega)
  have hj1 : Int.tmod (s.osc_idx + 1) (s.readParams p).curr_num_oscs < NUM_OSCS :=
    lt_of_lt_of_le (Int.tmod_lt_of_pos _ (by omega)) hc4
  have hz : (s.readParams p).curr_num_oscs ≠ 0 := by omega
  unfold Stitcher.process
  simp only [hsw0, Bool.false_eq_true, if_false, hidx, hcs, readArr_of_mem _ hi0 hi1,
    Option.bind_eq_bind, Option.some_bind, ho, hf, if_true, hst, hz,
    readArr_of_mem _ hj0 hj1, hn]
  exact ⟨_, rfl⟩

/-- C7: in a tick of `Stitcher::process` that is not crossfading on entry, the
hand-off fires (the tick leaves `is_swapping` true) if and only if the driven
oscillator `i` reports `last_flag` and the decremented countdown is below 1.
When it fires, `amp` is the sample oscillator `i` just produced, `speed` is
that oscillator's speed, `osc_idx` becomes `(i + 1) mod curr_num_oscs`,
`amp_next` is the sample the new oscillator produces on this tick,
`current_stutter` becomes `stutters[osc_idx]` for the new index, `phase`
becomes 0 and `is_swapping` true.  When it does not fire, `osc_idx`, `amp`,
`amp_next`, `speed` and `phase` are unchanged and `is_swapping` stays false. -/
theorem handoff_iff_flag_and_countdown {O R : Type} (ops : OscOps O R) (s s' : Stitcher O)
    (deltaTime : ℚ) (p : StitcherParams O) (ra rb : R) (log : List Int)
    (hplay : s.is_swapping = false)
    (htick : Stitcher.process ops s deltaTime p ra rb = some (s', log)) :
    ∃ o, ops.process ((s.readParams p).gos s.osc_idx) deltaTime ra = some o ∧
      (s'.is_swapping = true ↔ (ops.last_flag o = true ∧ s.current_stutter - 1 < 1)) ∧
      (s'.is_swapping = true →
        ∃ n, ops.process (Function.update (s.readParams p).gos s.osc_idx o s'.osc_idx)
            deltaTime rb = some n ∧
          s'.amp = ops.out o ∧ s'.speed = ops.speed o ∧
          s'.osc_idx = (s.osc_idx + 1) % (s.readParams p).curr_num_oscs ∧
          s'.amp_next = ops.out n ∧
          s'.current_stutter = (s.readParams p).stutters s'.osc_idx ∧
          s'.phase = 0) ∧
      (s'.is_swapping = false →
        s'.osc_idx = s.osc_idx ∧ s'.amp = s.amp ∧ s'.amp_next = s.amp_next ∧
          s'.speed = s.speed ∧ s'.phase = s.phase) := by
  obtain ⟨o, ⟨hi0, -⟩, ho, hcase⟩ := stitcher_playing_eq_some hplay htick
  obtain ⟨hc1, -⟩ := readParams_num_oscs s p
  have hmod : Int.tmod (s.osc_idx + 1) (s.readParams p).curr_num_oscs
      = (s.osc_idx + 1) % (s.readParams p).curr_num_oscs :=
    Int.tmod_eq_emod (by omega) (by omega)
  refine ⟨o, ho, ?_⟩
  rcases hcase with ⟨hfire, n, hn, -, rfl⟩ | ⟨hno, -, rfl⟩
  · refine ⟨⟨fun _ => hfire, fun _ => rfl⟩, fun _ => ⟨n, hn, rfl, rfl, hmod, rfl, rfl, rfl⟩, ?_⟩
    intro hfalse
    exact absurd hfalse (by simp)
  · refine ⟨⟨fun htrue => absurd htrue (by simp), fun h => absurd h hno⟩, ?_, ?_⟩
    · intro htrue
      exact absurd htrue (by simp)
    · intro _
      exact ⟨rfl, rfl, rfl, rfl, rfl⟩

/-! ### Stitcher: oscillators driven per tick (C8) -/

theorem plainOsc1_last_flag : plainOsc1.last_flag = true := by
  obtain ⟨-, -, -, hidx, hflag, -⟩ := process_wrap_fields plainOsc_tick (le_of_eq rfl)
  rw [hflag, hidx]
  decide

theorem plainParams_num_oscs (s : Stitcher GendyOscillator) :
    (s.readParams plainParams).curr_num_oscs = 4 := by
  have h : clamp plainParams.nosc 1 4 = 4 := by
    simp [clamp, plainParams]
  show truncQ (clamp plainParams.nosc 1 4) = 4
  rw [h]
  simp [truncQ]

theorem demoHandoff_tick :
    Stitcher.process gendyOps demoStitcher (1 / 48000) plainParams (0, 0) (0, 0)
      = some demoHandoff ∧ demoHandoff.2 = [0, 1] := by
  have hj : Int.tmod (demoStitcher.osc_idx + 1)
      (demoStitcher.readParams plainParams).curr_num_oscs = 1 := by
    rw [plainParams_num_oscs]
    decide
  obtain ⟨s', h⟩ := stitcher_handoff_defined gendyOps demoStitcher (1 / 48000) plainParams
    (0, 0) (0, 0) plainOsc1 plainOsc1 rfl (by decide) (by decide) plainOsc_tick
    plainOsc1_last_flag (by decide) (by rw [hj]; exact plainOsc_tick)
  rw [hj] at h
  have hd : demoHandoff = (s', [0, 1]) := by
    unfold demoHandoff
    rw [h]
    rfl
  rw [hd]
  exact ⟨h, rfl⟩

theorem demoHandoff_swapping : demoHandoff.1.is_swapping = true := by
  obtain ⟨o, -, -, hcase⟩ := stitcher_playing_eq_some (show demoStitcher.is_swapping = false
    from rfl) (show _ = some (demoHandoff.1, demoHandoff.2) from demoHandoff_tick.1)
  rcases hcase with ⟨-, n, -, -, hs⟩ | ⟨-, hlog, -⟩
  · rw [hs]
  · rw [demoHandoff_tick.2] at hlog
    exact absurd hlog (by decide)

theorem demoCross_tick :
    Stitcher.process gendyOps demoHandoff.1 (1 / 48000) plainParams (0, 0) (0, 0)
      = some (demoCross.1, demoCross.2) := by
  have hsw : (demoHandoff.1.readParams plainParams).is_swapping = true :=
    demoHandoff_swapping
  unfold demoCross
  unfold Stitcher.process
  simp only [hsw, if_true]
  split_ifs <;> rfl

/-- Witness for C7: the first tick of the constructed stitcher hands off. -/
theorem handoff_iff_flag_and_countdown_witness :
    (demoStitcher.is_swapping = false ∧
      Stitcher.process gendyOps demoStitcher (1 / 48000) plainParams (0, 0) (0, 0)
        = some (demoHandoff.1, demoHandoff.2)) ∧
    ∃ o, gendyOps.process ((demoStitcher.readParams plainParams).gos demoStitcher.osc_idx)
        (1 / 48000) (0, 0) = some o ∧
      (demoHandoff.1.is_swapping = true ↔
        (gendyOps.last_flag o = true ∧ demoStitcher.current_stutter - 1 < 1)) :=
  ⟨⟨rfl, demoHandoff_tick.1⟩,
    (handoff_iff_flag_and_countdown gendyOps demoStitcher demoHandoff.1 (1 / 48000)
      plainParams (0, 0) (0, 0) demoHandoff.2 rfl demoHandoff_tick.1).imp
      (fun _ h => ⟨h.1, h.2.1⟩)⟩

/-- C8 as stated fails: the first tick of the constructed stitcher is not
crossfading on entry, fires a hand-off and invokes `process` on oscillator 0
and then on oscillator 1, two invocations in one tick. -/
theorem handoff_tick_drives_two_oscillators :
    demoStitcher.is_swapping = false ∧
      Stitcher.process gendyOps demoStitcher (1 / 48000) plainParams (0, 0) (0, 0)
        = some demoHandoff ∧
      demoHandoff.2 = [0, 1] ∧ ¬ (demoHandoff.2.length ≤ 1) := by
  refine ⟨rfl, demoHandoff_tick.1, demoHandoff_tick.2, ?_⟩
  rw [demoHandoff_tick.2]
  decide

/-- C8 (amended): a tick of `Stitcher::process` that is crossfading on entry
invokes no oscillator, leaves every oscillator as the parameter prologue left
it and outputs the blend of the latched `amp` and `amp_next`; a tick that is
not crossfading on entry invokes `process` on oscillator `osc_idx` only when
no hand-off fires, and on the tick on which a hand-off fires it makes exactly
two invocations, oscillator `osc_idx` and then oscillator
`(osc_idx + 1) mod curr_num_oscs`. -/
theorem oscillator_calls_per_tick {O R : Type} (ops : OscOps O R) (s s' : Stitcher O)
    (deltaTime : ℚ) (p : StitcherParams O) (ra rb : R) (log : List Int)
    (htick : Stitcher.process ops s deltaTime p ra rb = some (s', log)) :
    (s.is_swapping = true →
      log = [] ∧ s'.gos = (s.readParams p).gos ∧
        s'.amp_out = Stitcher.crossfade s.amp s.amp_next s.phase) ∧
    (s.is_swapping = false →
      (s'.is_swapping = false → log = [s.osc_idx]) ∧
      (s'.is_swapping = true →
        log = [s.osc_idx, (s.osc_idx + 1) % (s.readParams p).curr_num_oscs])) := by
  constructor
  · intro hsw
    obtain ⟨hlog, hout, -, hgos, -⟩ := stitcher_swapping_eq_some hsw htick
    exact ⟨hlog, hgos, hout⟩
  · intro hsw
    obtain ⟨o, ⟨hi0, -⟩, -, hcase⟩ := stitcher_playing_eq_some hsw htick
    obtain ⟨hc1, -⟩ := readParams_num_oscs s p
    have hmod : Int.tmod (s.osc_idx + 1) (s.readParams p).curr_num_oscs
        = (s.osc_idx + 1) % (s.readParams p).curr_num_oscs :=
      Int.tmod_eq_emod (by omega) (by omega)
    rcases hcase with ⟨-, n, -, hlog, rfl⟩ | ⟨-, hlog, rfl⟩
    · exact ⟨fun h => absurd h (by simp), fun _ => by rw [hlog, hmod]⟩
    · exact ⟨fun _ => hlog, fun h => absurd h (by simp)⟩

/-- Witness for C8 (amended): the hand-off tick of the constructed stitcher
makes the two calls `gos[0].process` and `gos[1].process`. -/
theorem oscillator_calls_per_tick_witness :
    Stitcher.process gendyOps demoStitcher (1 / 48000) plainParams (0, 0) (0, 0)
        = some (demoHandoff.1, demoHandoff.2) ∧
      demoHandoff.2 = [demoStitcher.osc_idx,
        (demoStitcher.osc_idx + 1) % (demoStitcher.readParams plainParams).curr_num_oscs] :=
  ⟨demoHandoff_tick.1,
    ((oscillator_calls_per_tick gendyOps demoStitcher demoHandoff.1 (1 / 48000) plainParams
      (0, 0) (0, 0) demoHandoff.2 demoHandoff_tick.1).2 rfl).2 demoHandoff_swapping⟩

/-! ### Stitcher: crossfade law (C9) -/

/-- C9: the crossfade output is `out(p) = (1 - p) * amp + p * amp_next`; it
equals `amp` at `p = 0` and `amp_next` at `p = 1`, and for `0 <= x <= y <= 1`
the values `out(x)`, `out(y)` are ordered monotonically between `amp` and
`amp_next`.  Every crossfading tick outputs `out(phase)`; the first
crossfading tick after a hand-off therefore outputs exactly the latched `amp`,
which is the sample output by the hand-off tick itself. -/
theorem crossfade_endpoints_and_monotone {O R : Type} (ops : OscOps O R)
    (s s1 s2 : Stitcher O) (dt1 dt2 : ℚ) (p1 p2 : StitcherParams O) (ra1 rb1 ra2 rb2 : R)
    (log1 log2 : List Int) (a b x y : ℚ)
    (hx : 0 ≤ x) (hxy : x ≤ y) (hy : y ≤ 1)
    (hplay : s.is_swapping = false)
    (hfirst : Stitcher.process ops s dt1 p1 ra1 rb1 = some (s1, log1))
    (hfire : s1.is_swapping = true)
    (hnext : Stitcher.process ops s1 dt2 p2 ra2 rb2 = some (s2, log2)) :
    Stitcher.crossfade a b 0 = a ∧ Stitcher.crossfade a b 1 = b ∧
      (a ≤ b → a ≤ Stitcher.crossfade a b x ∧
        Stitcher.crossfade a b x ≤ Stitcher.crossfade a b y ∧
        Stitcher.crossfade a b y ≤ b) ∧
      (b ≤ a → b ≤ Stitcher.crossfade a b y ∧
        Stitcher.crossfade a b y ≤ Stitcher.crossfade a b x ∧
        Stitcher.crossfade a b x ≤ a) ∧
      s2.amp_out = Stitcher.crossfade s1.amp s1.amp_next s1.phase ∧
      s2.amp_out = s1.amp ∧ s1.amp = s1.amp_out := by
  have hout := (stitcher_swapping_eq_some hfire hnext).2.1
  have hlatch : s1.phase = 0 ∧ s1.amp = s1.amp_out := by
    obtain ⟨o, -, -, hcase⟩ := stitcher_playing_eq_some hplay hfirst
    rcases hcase with ⟨-, n, -, -, rfl⟩ | ⟨-, -, rfl⟩
    · exact ⟨rfl, rfl⟩
    · exact absurd hfire (by simp)
  refine ⟨by simp [Stitcher.crossfade], by simp [Stitcher.crossfade], ?_, ?_, hout, ?_,
    hlatch.2⟩
  · intro hab
    unfold Stitcher.crossfade
    have h1 : 0 ≤ x * (b - a) := mul_nonneg hx (by linarith)
    have h2 : 0 ≤ (y - x) * (b - a) := mul_nonneg (by linarith) (by linarith)
    have h3 : 0 ≤ (1 - y) * (b - a) := mul_nonneg (by linarith) (by linarith)
    refine ⟨by nlinarith, by nlinarith, by nlinarith⟩
  · intro hba
    unfold Stitcher.crossfade
    have h1 : 0 ≤ x * (a - b) := mul_nonneg hx (by linarith)
    have h2 : 0 ≤ (y - x) * (a - b) := mul_nonneg (by linarith) (by linarith)
    have h3 : 0 ≤ (1 - y) * (a - b) := mul_nonneg (by linarith) (by linarith)
    refine ⟨by nlinarith, by nlinarith, by nlinarith⟩
  · rw [hout, hlatch.1]
    simp [Stitcher.crossfade]

/-- Witness for C9: the hand-off tick of the constructed stitcher and the
crossfading tick after it, with the blend of 0 and 1 at `1/4` and `1/2`. -/
theorem crossfade_endpoints_and_monotone_witness :
    (((0 : ℚ) ≤ 1 / 4 ∧ (1 / 4 : ℚ) ≤ 1 / 2 ∧ (1 / 2 : ℚ) ≤ 1) ∧
      demoStitcher.is_swapping = false ∧
      Stitcher.process gendyOps demoStitcher (1 / 48000) plainParams (0, 0) (0, 0)
        = some (demoHandoff.1, demoHandoff.2) ∧
      demoHandoff.1.is_swapping = true ∧
      Stitcher.process gendyOps demoHandoff.1 (1 / 48000) plainParams (0, 0) (0, 0)
        = some (demoCross.1, demoCross.2)) ∧
    Stitcher.crossfade 0 1 (1 / 4) ≤ Stitcher.crossfade 0 1 (1 / 2) ∧
    demoCross.1.amp_out = demoHandoff.1.amp :=
  have h := crossfade_endpoints_and_monotone gendyOps demoStitcher demoHandoff.1 demoCross.1
    (1 / 48000) (1 / 48000) plainParams plainParams (0, 0) (0, 0) (0, 0) (0, 0)
    demoHandoff.2 demoCross.2 0 1 (1 / 4) (1 / 2) (by norm_num) (by norm_num) (by norm_num)
    rfl demoHandoff_tick.1 demoHandoff_swapping demoCross_tick
  ⟨⟨⟨by norm_num, by norm_num, by norm_num⟩, rfl, demoHandoff_tick.1, demoHandoff_swapping,
    demoCross_tick⟩, (h.2.2.1 (by norm_num)).2.1, h.2.2.2.2.2.1⟩

/-! ### GenEcho: the recorder (C10) -/

/-- Closed form of the cross-fade loop: started at cursor `s_i` with enough
fuel it ends at `MAX_SAMPLE_SIZE`, writes the ramp from `s_i` on and leaves
the entries below `s_i` alone. -/
theorem fillLoop_spec (x y : ℚ) :
    ∀ (fuel : Nat) (sample : Int → ℚ) (p : ℚ) (s_i : Int),
      0 ≤ s_i → s_i + (fuel : Int) = MAX_SAMPLE_SIZE →
      ∃ out, GenEcho.fillLoop x y fuel sample p s_i = some (out, MAX_SAMPLE_SIZE) ∧
        (∀ j, s_i ≤ j → j < MAX_SAMPLE_SIZE →
          out j = (x * (1 - (p + ((j - s_i : Int) : ℚ) / 50)))
            + (y * (p + ((j - s_i : Int) : ℚ) / 50))) ∧
        (∀ j, j < s_i → out j = sample j) := by
  intro fuel
  induction fuel with
  | zero =>
    intro sample p s_i _ hsum
    have hs : s_i = MAX_SAMPLE_SIZE := by simpa using hsum
    refine ⟨sample, ?_, ?_, fun _ _ => rfl⟩
    · simp [GenEcho.fillLoop, hs]
    · intro j h1 h2
      omega
  | succ fuel ih =>
    intro sample p s_i h0 hsum
    have hlt : s_i < MAX_SAMPLE_SIZE := by
      have : (0 : Int) ≤ (fuel : Int) := Int.ofNat_nonneg _
      push_cast at hsum
      omega
    obtain ⟨out, hout, hramp, hkeep⟩ := ih
      (Function.update sample s_i ((x * (1 - p)) + (y * p))) (p + 1 / 50) (s_i + 1)
      (by omega) (by push_cast at hsum; omega)
    refine ⟨out, ?_, ?_, ?_⟩
    · simp only [GenEcho.fillLoop, hlt, if_true, writeArr_of_mem _ _ h0 hlt,
        Option.bind_eq_bind, Option.some_bind]
      exact hout
    · intro j h1 h2
      rcases eq_or_lt_of_le h1 with heq | hgt
      · subst heq
        rw [hkeep s_i (by omega), Function.update_same]
        simp
      · rw [hramp j (by omega) h2]
        have : ((j - (s_i + 1) : Int) : ℚ) = ((j - s_i : Int) : ℚ) - 1 := by
          push_cast
          ring
        rw [this]
        ring
    · intro j hj
      rw [hkeep j (by omega), Function.update_noteq (by omega)]

/-- Members the recorder reads, after the parameter prologue, the reset block
and the gate block. -/
theorem recorded_eq_some {s m : GenEcho} {p : EchoIn} (h : s.recorded p = some m) :
    ∃ s0, s.readParams p = some s0 ∧
      ((s0.resetBlock p).gateBlock p).recordBlock p = some m ∧
      s0._sample = s._sample ∧ s0.s_i = s.s_i ∧ s0.sampling = s.sampling ∧
      s0.sample = s.sample := by
  unfold GenEcho.recorded at h
  simp only [Option.bind_eq_bind, Option.bind_eq_some] at h
  obtain ⟨s0, h0, h1⟩ := h
  refine ⟨s0, h0, h1, ?_⟩
  unfold GenEcho.readParams at h0
  split_ifs at h0
  simp only [Option.some.injEq] at h0
  subst h0
  exact ⟨rfl, rfl, rfl, rfl⟩

theorem resetBlock_fields (s : GenEcho) (p : EchoIn) :
    (s.resetBlock p)._sample = s._sample ∧ (s.resetBlock p).s_i = s.s_i ∧
      (s.resetBlock p).sampling = s.sampling := by
  unfold GenEcho.resetBlock
  split_ifs <;> exact ⟨rfl, rfl, rfl⟩

theorem gateBlock_fields (s : GenEcho) (p : EchoIn) :
    (s.gateBlock p)._sample = s._sample ∧ (s.gateBlock p).sample = s.sample ∧
      (s.gateBlock p).s_i = (if p.gate = true then 0 else s.s_i) ∧
      (s.gateBlock p).sampling = (p.gate || s.sampling) := by
  unfold GenEcho.gateBlock
  by_cases hg : p.gate = true
  · simp [hg]
  · simp [hg]

/-- One recorded sample: below the smoothing window the recorder stores the
input in the live buffer and in the snapshot and advances the cursor. -/
theorem recordBlock_store {g m : GenEcho} {p : EchoIn} (hs : g.sampling = true)
    (h0 : 0 ≤ g.s_i) (h1 : g.s_i < MAX_SAMPLE_SIZE - 50) (h : g.recordBlock p = some m) :
    m.sampling = true ∧ m.s_i = g.s_i + 1 ∧
      m._sample = Function.update g._sample g.s_i p.wav0 ∧
      m.sample = Function.update g.sample g.s_i p.wav0 := by
  have hlt : g.s_i < MAX_SAMPLE_SIZE := by
    have : MAX_SAMPLE_SIZE = 44100 := rfl
    omega
  have hge : ¬ (g.s_i ≥ MAX_SAMPLE_SIZE - 50) := not_le.mpr h1
  unfold GenEcho.recordBlock at h
  simp only [hs, if_true, hge, if_false, writeArr_of_mem _ _ h0 hlt, readArr_of_mem _ h0 hlt,
    Option.bind_eq_bind, Option.some_bind, Function.update_same, Option.pure_def,
    Option.some.injEq] at h
  subst h
  exact ⟨rfl, rfl, rfl, rfl⟩

/-- The tick that finds the cursor inside the smoothing window: the recorder
writes the cross-fade up to the end of the buffer and stops. -/
theorem recordBlock_fill {g : GenEcho} (p : EchoIn) (hs : g.sampling = true)
    (h0 : MAX_SAMPLE_SIZE - 50 ≤ g.s_i) (h1 : g.s_i < MAX_SAMPLE_SIZE) :
    ∃ m, g.recordBlock p = some m ∧ m.sampling = false ∧ m.s_i = MAX_SAMPLE_SIZE ∧
      m._sample = g._sample ∧
      (∀ j, g.s_i ≤ j → j < MAX_SAMPLE_SIZE →
        m.sample j = (g.sample (g.s_i - 1) * (1 - ((j - g.s_i : Int) : ℚ) / 50))
          + (g.sample 0 * (((j - g.s_i : Int) : ℚ) / 50))) ∧
      (∀ j, j < g.s_i → m.sample j = g.sample j) := by
  have hM : MAX_SAMPLE_SIZE = 44100 := rfl
  have hpos : 0 ≤ g.s_i := by omega
  obtain ⟨out, hout, hramp, hkeep⟩ := fillLoop_spec (g.sample (g.s_i - 1)) (g.sample 0)
    (MAX_SAMPLE_SIZE - g.s_i).toNat g.sample 0 g.s_i hpos
    (by rw [Int.toNat_of_nonneg (by omega)]; ring)
  refine ⟨{ g with sample := out, s_i := MAX_SAMPLE_SIZE, sampling := false }, ?_, rfl, rfl,
    rfl, ?_, hkeep⟩
  · unfold GenEcho.recordBlock
    have hge : g.s_i ≥ MAX_SAMPLE_SIZE - 50 := h0
    simp only [hs, if_true, hge, readArr_of_mem g.sample (show 0 ≤ g.s_i - 1 by omega)
      (show g.s_i - 1 < MAX_SAMPLE_SIZE by omega),
      readArr_of_mem g.sample (le_refl 0) (show (0 : Int) < MAX_SAMPLE_SIZE by decide),
      Option.bind_eq_bind, Option.some_bind, hout, Option.pure_def]
  · intro j hj1 hj2
    have := hramp j hj1 hj2
    simp only [zero_add] at this
    exact this
theorem wrapBlock_fields {lib : EchoLib} {s m : GenEcho} {p : EchoIn}
    (h : GenEcho.wrapBlock lib s p = some m) :
    m.s_i = s.s_i ∧ m.sampling = s.sampling ∧ m._sample = s._sample ∧
      m.sample = s.sample ∧ m.idx = s.idx := by
  unfold GenEcho.wrapBlock at h
  by_cases hp : 1 ≤ s.phase
  · rw [if_pos hp] at h
    by_cases hn : s.num_bpts = 0
    · rw [if_pos hn] at h
      exact absurd h (by simp)
    · rw [if_neg hn] at h
      simp only [Option.bind_eq_bind, Option.pure_def, Option.bind_eq_some,
        Option.some.injEq] at h
      obtain ⟨a, -, d, -, ma, -, md, -, an, -, rfl⟩ := h
      exact ⟨rfl, rfl, rfl, rfl, rfl⟩
  · rw [if_neg hp] at h
    simp only [Option.some.injEq] at h
    subst h
    exact ⟨rfl, rfl, rfl, rfl, rfl⟩

theorem writeBlock_fields {lib : EchoLib} {s m : GenEcho} {out : ℚ}
    (h : GenEcho.writeBlock lib s = some (m, out)) :
    m.s_i = s.s_i ∧ m.sampling = s.sampling ∧ m._sample = s._sample ∧
      (∀ j, j ≠ s.idx → m.sample j = s.sample j) ∧ out = m.sample s.idx := by
  unfold GenEcho.writeBlock at h
  split_ifs at h with hz
  simp only [Option.bind_eq_bind, Option.pure_def, Option.bind_eq_some, Option.some.injEq,
    Prod.mk.injEq] at h
  obtain ⟨v, -, e, -, smp, hw, ao, hr, d, -, rfl, rfl⟩ := h
  obtain ⟨-, -, rfl⟩ := writeArr_eq_some hw
  obtain ⟨-, -, hao⟩ := readArr_eq_some hr
  exact ⟨rfl, rfl, rfl, fun j hj => Function.update_noteq hj _ _, hao⟩

/-- What a whole tick keeps of the state the recorder left: the cursor, the
recording flag, the snapshot, and the live buffer away from the playback
position. -/
theorem process_after_recorded {lib : EchoLib} {s s' : GenEcho} {p : EchoIn} {out : ℚ}
    (h : GenEcho.process lib s p = some (s', out)) :
    ∃ m, s.recorded p = some m ∧ s'.s_i = m.s_i ∧ s'.sampling = m.sampling ∧
      s'._sample = m._sample ∧ (∀ j, j ≠ m.idx → s'.sample j = m.sample j) := by
  unfold GenEcho.process at h
  simp only [Option.bind_eq_bind, Option.bind_eq_some] at h
  obtain ⟨m, hm, w, hw, hwr⟩ := h
  obtain ⟨w1, w2, w3, w4, w5⟩ := wrapBlock_fields hw
  obtain ⟨r1, r2, r3, r4, -⟩ := writeBlock_fields hwr
  refine ⟨m, hm, by rw [r1, w1], by rw [r2, w2], by rw [r3, w3], ?_⟩
  intro j hj
  rw [r4 j (by rw [w5]; exact hj), w4]

/-- One tick of a recording below the smoothing window.  The cursor on entry
to the recorder is 0 on a gate edge and `s_i` otherwise. -/
theorem process_records_one {lib : EchoLib} {s s' : GenEcho} {p : EchoIn} {out : ℚ}
    (h : GenEcho.process lib s p = some (s', out))
    (hrec : p.gate = true ∨ s.sampling = true)
    (h0 : 0 ≤ (if p.gate = true then 0 else s.s_i))
    (h1 : (if p.gate = true then 0 else s.s_i) < MAX_SAMPLE_SIZE - 50) :
    s'.sampling = true ∧ s'.s_i = (if p.gate = true then 0 else s.s_i) + 1 ∧
      s'._sample = Function.update s._sample (if p.gate = true then 0 else s.s_i) p.wav0 := by
  obtain ⟨m, hm, e1, e2, e3, -⟩ := process_after_recorded h
  obtain ⟨s0, -, hrb, f1, f2, f3, -⟩ := recorded_eq_some hm
  obtain ⟨r1, r2, r3⟩ := resetBlock_fields s0 p
  obtain ⟨g1, -, g3, g4⟩ := gateBlock_fields (s0.resetBlock p) p
  have hs : ((s0.resetBlock p).gateBlock p).sampling = true := by
    rw [g4, r3, f3]
    rcases hrec with hg | hsam
    · simp [hg]
    · simp [hsam]
  have hsi : ((s0.resetBlock p).gateBlock p).s_i = (if p.gate = true then 0 else s.s_i) := by
    rw [g3, r2, f2]
  obtain ⟨k1, k2, k3, -⟩ := recordBlock_store hs (by rw [hsi]; exact h0)
    (by rw [hsi]; exact h1) hrb
  refine ⟨by rw [e2, k1], by rw [e1, k2, hsi], ?_⟩
  rw [e3, k3, hsi, g1, r1, f1]

/-- A run of ticks without gate edges during a recording: the cursor advances
by one per tick and the snapshot holds the inputs in order. -/
theorem run_records (lib : EchoLib) :
    ∀ (ps : List EchoIn) (s s' : GenEcho),
      (∀ r ∈ ps, r.gate = false) → s.sampling = true → 0 ≤ s.s_i →
      s.s_i + (ps.length : Int) ≤ MAX_SAMPLE_SIZE - 50 →
      GenEcho.run lib s ps = some s' →
      s'.sampling = true ∧ s'.s_i = s.s_i + (ps.length : Int) ∧
        (∀ (i : Nat) (hi : i < ps.length),
          s'._sample (s.s_i + (i : Int)) = (ps.get ⟨i, hi⟩).wav0) ∧
        (∀ j, j < s.s_i → s'._sample j = s._sample j) := by
  intro ps
  induction ps with
  | nil =>
    intro s s' _ hs _ _ h
    simp only [GenEcho.run, Option.some.injEq] at h
    subst h
    refine ⟨hs, by simp, ?_, fun _ _ => rfl⟩
    intro i hi
    exact absurd hi (by simp)
  | cons p ps ih =>
    intro s s' hng hs h0 hlen h
    simp only [GenEcho.run, Option.bind_eq_bind, Option.bind_eq_some] at h
    obtain ⟨⟨s1, out⟩, hstep, hrest⟩ := h
    have hpg : p.gate = false := hng p (List.mem_cons_self _ _)
    have hlen2 : s.s_i + ((ps.length : Int) + 1) ≤ MAX_SAMPLE_SIZE - 50 := by
      simpa using hlen
    have hnn : (0 : Int) ≤ (ps.length : Int) := Int.ofNat_nonneg _
    have hc : (if p.gate = true then 0 else s.s_i) = s.s_i := by simp [hpg]
    obtain ⟨a1, a2, a3⟩ := process_records_one hstep (Or.inr hs)
      (by rw [hc]; exact h0) (by rw [hc]; omega)
    rw [hc] at a2 a3
    obtain ⟨b1, b2, b3, b4⟩ := ih s1 s' (fun r hr => hng r (List.mem_cons_of_mem _ hr)) a1
      (by rw [a2]; omega) (by rw [a2]; omega) hrest
    refine ⟨b1, by rw [b2, a2]; simp only [List.length_cons]; push_cast; ring, ?_, ?_⟩
    · intro i hi
      cases i with
      | zero =>
        have : s'._sample s.s_i = s1._sample s.s_i := b4 s.s_i (by rw [a2]; omega)
        simp only [Nat.cast_zero, add_zero, List.get_eq_getElem, List.getElem_cons_zero]
        rw [this, a3, Function.update_same]
      | succ i =>
        have hi2 : i < ps.length := by simpa using hi
        have := b3 i hi2
        rw [a2] at this
        simp only [List.get_eq_getElem, List.getElem_cons_succ]
        simp only [List.get_eq_getElem] at this
        rw [← this]
        congr 1
        push_cast
        ring
    · intro j hj
      rw [b4 j (by rw [a2]; omega), a3, Function.update_noteq (by omega)]

theorem echoGated_tick : GenEcho.process clampLib GenEcho.init gateIn = some echoGated := by
  have h14 : Int.tmod 1 4 = 1 := by decide
  have h1L : Int.tmod 1 4410 = 1 := by decide
  have hfl : Int.floor ((1 / 2 : ℚ) * 2048) = 1024 := by
    rw [Int.floor_eq_iff]; norm_num
  have hce : Int.ceil ((1 / 2 : ℚ) * 2048) = 1024 := by
    rw [Int.ceil_eq_iff]; norm_num
  have hsl : Int.floor ((10 : ℚ)⁻¹ * 44100) = 4410 := by
    rw [Int.floor_eq_iff]; norm_num
  have h : (GenEcho.process clampLib GenEcho.init gateIn).isSome = true := by
    simp [GenEcho.process, GenEcho.recorded, GenEcho.readParams, GenEcho.resetBlock,
      GenEcho.gateBlock, GenEcho.recordBlock, gateIn, GenEcho.init, readArr, writeArr,
      MAX_SAMPLE_SIZE, GenEcho.wrapBlock, GenEcho.writeBlock, GenEcho.MAX_BPTS, clampLib,
      Wavetable.get, Wavetable.index, triTable, TABLE_SIZE, clamp, truncQ, hsl, h14, h1L]
    norm_num [h14, h1L, hfl, hce]
  obtain ⟨r, hr⟩ := Option.isSome_iff_exists.mp h
  unfold echoGated
  rw [hr]
  rfl

/-- C10 as stated fails for an active length below the capacity.  With the
active length at 4410 and the cursor at `4410 - 50 = 4360`, the tick stores
the input (1) at `sample[4360]`, where the claimed cross-fade would start
from `sample[4359] = 0`, advances the cursor to 4361 and keeps recording. -/
theorem recording_ignores_active_length :
    (echoShort.readParams holdIn).map (fun m => m.sample_length) = some 4410 ∧
      (echoShort.sampling = true ∧ echoShort.s_i = 4410 - 50 ∧ echoShort.sample 4359 = 0) ∧
      (GenEcho.process clampLib echoShort holdIn).map
        (fun r => (r.1.sampling, r.1.s_i, r.1.sample 4360)) = some (true, 4361, 1) := by
  have h15 : Int.tmod 1 5 = 1 := by decide
  have h1L : Int.tmod 1 4410 = 1 := by decide
  have hfl : Int.floor ((1 / 2 : ℚ) * 2048) = 1024 := by
    rw [Int.floor_eq_iff]; norm_num
  have hce : Int.ceil ((1 / 2 : ℚ) * 2048) = 1024 := by
    rw [Int.ceil_eq_iff]; norm_num
  have hsl : Int.floor ((10 : ℚ)⁻¹ * 44100) = 4410 := by
    rw [Int.floor_eq_iff]; norm_num
  refine ⟨?_, ⟨rfl, rfl, rfl⟩, ?_⟩
  · simp [GenEcho.readParams, holdIn, gateIn, clamp, truncQ, MAX_SAMPLE_SIZE, hsl]
  · simp [GenEcho.process, GenEcho.recorded, GenEcho.readParams, GenEcho.resetBlock,
      GenEcho.gateBlock, GenEcho.recordBlock, echoShort, holdIn, gateIn, GenEcho.init,
      readArr, writeArr, MAX_SAMPLE_SIZE, GenEcho.wrapBlock, GenEcho.writeBlock,
      GenEcho.MAX_BPTS, clampLib, Wavetable.get, Wavetable.index, triTable, TABLE_SIZE,
      clamp, truncQ, hsl, h15, h1L]
    norm_num [h15, h1L, hfl, hce]

/-- C10 (amended): the recorder does not consult the active length.  A
recording started by a gate edge stores one input per tick, in the live
buffer and in the snapshot, while the cursor is below
`MAX_SAMPLE_SIZE - 50`; on the tick that finds the cursor at
`MAX_SAMPLE_SIZE - 50` it fills the last 50 entries with
`sample[MAX_SAMPLE_SIZE - 50 + k] = x * (1 - k/50) + sample[0] * (k/50)` for
`k = 0 .. 49`, where `x = sample[MAX_SAMPLE_SIZE - 51]` and `sample[0]` are the
live values on entry to the recorder, and stops recording. -/
theorem recording_runs_to_capacity (lib : EchoLib) (s s1 : GenEcho) (p : EchoIn)
    (ps : List EchoIn) (t : GenEcho) (q : EchoIn)
    (hgate : p.gate = true) (hhold : ∀ r ∈ ps, r.gate = false)
    (hlen : (ps.length : Int) + 1 ≤ MAX_SAMPLE_SIZE - 50)
    (hrun : GenEcho.run lib s (p :: ps) = some s1)
    (ht : t.sampling = true) (hti : t.s_i = MAX_SAMPLE_SIZE - 50)
    (hq : q.gate = false) (hqb : q.bpt_spc ≠ 0) :
    (s1.sampling = true ∧ s1.s_i = (ps.length : Int) + 1 ∧
      ∀ (i : Nat) (hi : i < (p :: ps).length),
        s1._sample (i : Int) = ((p :: ps).get ⟨i, hi⟩).wav0) ∧
    ∃ m, t.recorded q = some m ∧ m.sampling = false ∧ m.s_i = MAX_SAMPLE_SIZE ∧
      m._sample = t._sample ∧
      (∀ k : Int, 0 ≤ k → k < 50 →
        m.sample (MAX_SAMPLE_SIZE - 50 + k)
          = ((if q.reset = true then t._sample (MAX_SAMPLE_SIZE - 51)
                else t.sample (MAX_SAMPLE_SIZE - 51)) * (1 - (k : ℚ) / 50))
            + ((if q.reset = true then t._sample 0 else t.sample 0) * ((k : ℚ) / 50))) ∧
      ∀ (t2 : GenEcho) (out : ℚ), GenEcho.process lib t q = some (t2, out) →
        t2.sampling = false ∧ t2.s_i = MAX_SAMPLE_SIZE ∧
          ∀ j, j ≠ m.idx → t2.sample j = m.sample j := by
  have hM : MAX_SAMPLE_SIZE = 44100 := rfl
  constructor
  · simp only [GenEcho.run, Option.bind_eq_bind, Option.bind_eq_some] at hrun
    obtain ⟨⟨s0, out⟩, hstep, hrest⟩ := hrun
    have hc : (if p.gate = true then 0 else s.s_i) = 0 := by simp [hgate]
    have hnn : (0 : Int) ≤ (ps.length : Int) := Int.ofNat_nonneg _
    obtain ⟨a1, a2, a3⟩ := process_records_one hstep (Or.inl hgate)
      (by rw [hc]) (by rw [hc]; omega)
    rw [hc] at a2 a3
    obtain ⟨b1, b2, b3, b4⟩ := run_records lib ps s0 s1 hhold a1 (by rw [a2]; omega)
      (by rw [a2]; omega) hrest
    refine ⟨b1, by rw [b2, a2]; ring, ?_⟩
    intro i hi
    cases i with
    | zero =>
      simp only [Nat.cast_zero, List.get_eq_getElem, List.getElem_cons_zero]
      rw [b4 0 (by rw [a2]; omega), a3, Function.update_same]
    | succ i =>
      have hi2 : i < ps.length := by simpa using hi
      have := b3 i hi2
      rw [a2] at this
      simp only [List.get_eq_getElem, List.getElem_cons_succ]
      simp only [List.get_eq_getElem] at this
      rw [← this]
      congr 1
      push_cast
      ring
  · have hrp : ∃ t0, t.readParams q = some t0 ∧ t0.sample = t.sample ∧
        t0._sample = t._sample ∧ t0.s_i = t.s_i ∧ t0.sampling = t.sampling := by
      unfold GenEcho.readParams
      rw [if_neg hqb]
      exact ⟨_, rfl, rfl, rfl, rfl, rfl⟩
    obtain ⟨t0, ht0, e1, e2, e3, e4⟩ := hrp
    obtain ⟨r1, r2, r3⟩ := resetBlock_fields t0 q
    obtain ⟨g1, g2, g3, g4⟩ := gateBlock_fields (t0.resetBlock q) q
    have hlive : ∀ j, 0 ≤ j → j < MAX_SAMPLE_SIZE →
        ((t0.resetBlock q).gateBlock q).sample j
          = (if q.reset = true then t._sample j else t.sample j) := by
      intro j hj0 hj1
      rw [g2]
      unfold GenEcho.resetBlock
      by_cases hr : q.reset = true
      · simp [hr, hj0, hj1, e2]
      · simp [hr, e1]
    have hs : ((t0.resetBlock q).gateBlock q).sampling = true := by
      rw [g4, r3, e4, ht, hq]
      rfl
    have hsi : ((t0.resetBlock q).gateBlock q).s_i = MAX_SAMPLE_SIZE - 50 := by
      rw [g3, r2, e3, hti]
      simp [hq]
    obtain ⟨m, hm, m1, m2, m3, m4, -⟩ := recordBlock_fill q hs (by rw [hsi]) (by rw [hsi]; omega)
    have hrec : t.recorded q = some m := by
      unfold GenEcho.recorded
      simp only [ht0, Option.bind_eq_bind, Option.some_bind]
      exact hm
    refine ⟨m, hrec, m1, m2, by rw [m3, g1, r1, e2], ?_, ?_⟩
    · intro k hk0 hk1
      have := m4 (MAX_SAMPLE_SIZE - 50 + k) (by rw [hsi]; omega) (by omega)
      rw [this, hsi, hlive _ (by omega) (by omega), hlive 0 (le_refl _) (by omega)]
      have e : MAX_SAMPLE_SIZE - 50 - 1 = MAX_SAMPLE_SIZE - 51 := by ring
      have e' : MAX_SAMPLE_SIZE - 50 + k - (MAX_SAMPLE_SIZE - 50) = k := by ring
      rw [e, e']
    · intro t2 out hproc
      obtain ⟨m', hm', f1, f2, -, f4⟩ := process_after_recorded hproc
      rw [hrec] at hm'
      have : m = m' := Option.some.inj hm'
      subst this
      exact ⟨by rw [f2, m1], by rw [f1, m2], f4⟩

theorem echoGated_run : GenEcho.run clampLib GenEcho.init [gateIn] = some echoGated.1 := by
  simp only [GenEcho.run, echoGated_tick, Option.bind_eq_bind, Option.some_bind]

/-- Witness for C10 (amended): the gate tick on the constructed module records
the first input, and the tick that finds the cursor at
`MAX_SAMPLE_SIZE - 50` with `sample[0] = 1` and `sample[44049] = 0` writes
the ramp `k/50` and stops. -/
theorem recording_runs_to_capacity_witness :
    (gateIn.gate = true ∧ GenEcho.run clampLib GenEcho.init [gateIn] = some echoGated.1 ∧
      echoFull.sampling = true ∧ echoFull.s_i = MAX_SAMPLE_SIZE - 50 ∧
      holdIn.gate = false ∧ holdIn.bpt_spc ≠ 0) ∧
    (echoGated.1.sampling = true ∧ echoGated.1.s_i = 1 ∧ echoGated.1._sample 0 = 1) ∧
    (echoFull.recorded holdIn = some echoFilled ∧ echoFilled.sampling = false ∧
      echoFilled.sample (MAX_SAMPLE_SIZE - 50 + 25) = 1 / 2) := by
  have hb : holdIn.bpt_spc ≠ 0 := by decide
  obtain ⟨⟨a1, a2, a3⟩, m, hm, m1, -, -, m4, -⟩ :=
    recording_runs_to_capacity clampLib GenEcho.init echoGated.1 gateIn [] echoFull holdIn
      rfl (by simp) (by decide) echoGated_run rfl rfl rfl hb
  have hf : echoFilled = m := by
    unfold echoFilled
    rw [hm]
    rfl
  refine ⟨⟨rfl, echoGated_run, rfl, rfl, rfl, hb⟩, ⟨a1, by simpa using a2, ?_⟩,
    ⟨by rw [hf]; exact hm, by rw [hf]; exact m1, ?_⟩⟩
  · have := a3 0 (by simp)
    simpa [gateIn] using this
  · rw [hf, m4 25 (by norm_num) (by norm_num)]
    simp [holdIn, gateIn, echoFull, MAX_SAMPLE_SIZE]
    norm_num

/-! ### Wavetable initialisers (C11, C12, C13) -/

/-- Closed form of the initialiser loop: started at counter `i` with enough
fuel it terminates, keeps the entries below `i` and stores in entry `i + k`
the value of `body` at the `phase` reached after `k` iterations. -/
theorem fillTable_spec (body step : Int → ℚ → ℚ) :
    ∀ (fuel : Nat) (i : Int) (phase : ℚ) (t : Int → ℚ),
      0 ≤ i → i + (fuel : Int) = TABLE_SIZE →
      ∃ out, Wavetable.fillTable body step fuel i phase t = some out ∧
        (∀ j, j < i → out j = t j) ∧
        ∀ k : Nat, i + (k : Int) < TABLE_SIZE →
          out (i + (k : Int)) = body (i + (k : Int)) (Wavetable.phaseAfter step k i phase) := by
  intro fuel
  induction fuel with
  | zero =>
    intro i phase t _ hsum
    have hi : i = TABLE_SIZE := by simpa using hsum
    refine ⟨t, by simp [Wavetable.fillTable, hi], fun _ _ => rfl, ?_⟩
    intro k hk
    have : (0 : Int) ≤ (k : Int) := Int.ofNat_nonneg _
    omega
  | succ fuel ih =>
    intro i phase t h0 hsum
    have hlt : i < TABLE_SIZE := by
      have : (0 : Int) ≤ (fuel : Int) := Int.ofNat_nonneg _
      push_cast at hsum
      omega
    obtain ⟨out, hout, hkeep, hfill⟩ := ih (i + 1) (step i phase)
      (Function.update t i (body i phase)) (by omega) (by push_cast at hsum; omega)
    refine ⟨out, ?_, ?_, ?_⟩
    · simp only [Wavetable.fillTable, hlt, if_true, writeArr_of_mem _ _ h0 hlt,
        Option.bind_eq_bind, Option.some_bind]
      exact hout
    · intro j hj
      rw [hkeep j (by omega), Function.update_noteq (by omega)]
    · intro k hk
      cases k with
      | zero =>
        simp only [Nat.cast_zero, add_zero, Wavetable.phaseAfter]
        rw [hkeep i (by omega), Function.update_same]
      | succ k =>
        have e : i + ((k + 1 : Nat) : Int) = i + 1 + (k : Int) := by
          push_cast
          ring
        rw [e]
        exact hfill k (by rw [← e]; exact hk)

/-- Entry `k` of a table filled from counter 0 and phase 0. -/
theorem fillTable_from_zero (body step : Int → ℚ → ℚ) (t : Int → ℚ) :
    ∃ out, Wavetable.fillTable body step TABLE_SIZE.toNat 0 0 t = some out ∧
      ∀ k : Nat, (k : Int) < TABLE_SIZE →
        out (k : Int) = body (k : Int) (Wavetable.phaseAfter step k 0 0) := by
  obtain ⟨out, hout, -, hfill⟩ := fillTable_spec body step TABLE_SIZE.toNat 0 0 t (le_refl _)
    (by decide)
  refine ⟨out, hout, ?_⟩
  intro k hk
  have := hfill k (by simpa using hk)
  simpa using this

/-- Phase of `initSinWav` after `k` iterations: the increments `i / twoPi` add
up to a triangular number over `twoPi`. -/
theorem sin_phaseAfter (twoPi : ℚ) :
    ∀ (k : Nat) (i : Int) (phase : ℚ),
      Wavetable.phaseAfter (fun i phase => phase + (i : ℚ) / twoPi) k i phase
        = phase + ((k : ℚ) * (i : ℚ) + (k : ℚ) * ((k : ℚ) - 1) / 2) / twoPi := by
  intro k
  induction k with
  | zero =>
    intro i phase
    simp [Wavetable.phaseAfter]
  | succ k ih =>
    intro i phase
    simp only [Wavetable.phaseAfter]
    rw [ih]
    push_cast
    ring

/-- Phase of `initDefaultEnv` after `k` iterations. -/
theorem tri_phaseAfter :
    ∀ (k : Nat) (i : Int) (phase : ℚ),
      Wavetable.phaseAfter (fun _ phase => phase + 1 / (TABLE_SIZE : ℚ)) k i phase
        = phase + (k : ℚ) / (TABLE_SIZE : ℚ) := by
  intro k
  induction k with
  | zero =>
    intro i phase
    simp [Wavetable.phaseAfter]
  | succ k ih =>
    intro i phase
    simp only [Wavetable.phaseAfter]
    rw [ih]
    push_cast
    ring

/-- C11 (the code departs from the claim): `initSinWav` advances `phase` by
`i / (2*pi)` instead of `1 / TABLE_SIZE`, so entry `i` is
`sinf(i * (i - 1) / 2)`; entry 2 is `sinf(1)`, which for a sine that is
strictly increasing on `[0, 1]` differs from the claimed
`sinf(2*pi * 2 / TABLE_SIZE)`. -/
theorem sine_table_is_not_one_cycle (sinf : ℚ → ℚ) (twoPi : ℚ) (w : Wavetable)
    (hlo : 6 < twoPi) (hhi : twoPi < 7) (hmono : StrictMonoOn sinf (Set.Icc 0 1)) :
    ∃ w', w.initSinWav sinf twoPi = some w' ∧
      (∀ k : Nat, (k : Int) < TABLE_SIZE →
        w'.table (k : Int) = sinf ((k : ℚ) * ((k : ℚ) - 1) / 2)) ∧
      w'.table 2 = sinf 1 ∧
      w'.table 2 ≠ sinf (twoPi * (2 / (TABLE_SIZE : ℚ))) := by
  have htp : twoPi ≠ 0 := by
    intro h
    rw [h] at hlo
    norm_num at hlo
  obtain ⟨out, hout, hfill⟩ := fillTable_from_zero (fun _ phase => sinf (twoPi * phase))
    (fun i phase => phase + (i : ℚ) / twoPi) w.table
  have hall : ∀ k : Nat, (k : Int) < TABLE_SIZE →
      out (k : Int) = sinf ((k : ℚ) * ((k : ℚ) - 1) / 2) := by
    intro k hk
    have e : twoPi * (0 + ((k : ℚ) * ((0 : Int) : ℚ) + (k : ℚ) * ((k : ℚ) - 1) / 2) / twoPi)
        = (k : ℚ) * ((k : ℚ) - 1) / 2 := by
      push_cast
      field_simp
      ring
    rw [hfill k hk, sin_phaseAfter, e]
  have h2 : out 2 = sinf 1 := by
    have := hall 2 (by decide)
    norm_num at this
    exact this
  refine ⟨⟨out⟩, by simp [Wavetable.initSinWav, hout], hall, h2, ?_⟩
  show out 2 ≠ _
  rw [h2]
  have hN : ((TABLE_SIZE : Int) : ℚ) = 2048 := by norm_num [TABLE_SIZE]
  have hx0 : (0 : ℚ) ≤ twoPi * (2 / (TABLE_SIZE : ℚ)) := by
    rw [hN]
    linarith
  have hx1 : twoPi * (2 / (TABLE_SIZE : ℚ)) < 1 := by
    rw [hN]
    linarith
  exact ne_of_gt (hmono ⟨hx0, le_of_lt hx1⟩ ⟨by norm_num, le_refl _⟩ hx1)

/-- Witness for C11: the identity in place of the sine, `6283/1000` for
`2*pi`, on the zero table. -/
theorem sine_table_is_not_one_cycle_witness :
    ((6 : ℚ) < 6283 / 1000 ∧ (6283 / 1000 : ℚ) < 7 ∧
      StrictMonoOn (fun x : ℚ => x) (Set.Icc 0 1)) ∧
    ∃ w', zeroTable.initSinWav (fun x => x) (6283 / 1000) = some w' ∧ w'.table 2 = 1 :=
  have hm : StrictMonoOn (fun x : ℚ => x) (Set.Icc 0 1) := fun _ _ _ _ h => h
  ⟨⟨by norm_num, by norm_num, hm⟩,
    (sine_table_is_not_one_cycle (fun x => x) (6283 / 1000) zeroTable (by norm_num)
      (by norm_num) hm).imp (fun _ h => ⟨h.1, h.2.2.1⟩)⟩

/-- C12 (the code departs from the claim): `initDefaultEnv` stores `i/N` while
`phase < 0.5` and `2 - i/N` afterwards, with slope `1/N` where the claimed
triangle has `2/N`.  The table rises to `1023/2048` at `i = 1023`, jumps to
`3/2` at `i = 1024` and stays above 1 for the whole second half. -/
theorem triangle_table_jumps_at_midpoint (w : Wavetable) :
    ∃ w', w.initDefaultEnv = some w' ∧
      (∀ k : Nat, (k : Int) < TABLE_SIZE → w'.table (k : Int) = triTable.table (k : Int)) ∧
      w'.table 1023 = 1023 / 2048 ∧ w'.table 1024 = 3 / 2 ∧
      (∀ k : Nat, 1024 ≤ k → (k : Int) < TABLE_SIZE → 1 < w'.table (k : Int)) := by
  obtain ⟨out, hout, hfill⟩ := fillTable_from_zero
    (fun i phase => if phase < 1 / 2 then (i : ℚ) / (TABLE_SIZE : ℚ)
      else ((-1 * (i : ℚ)) / (TABLE_SIZE : ℚ)) + 2)
    (fun _ phase => phase + 1 / (TABLE_SIZE : ℚ)) w.table
  have hN : ((TABLE_SIZE : Int) : ℚ) = 2048 := by norm_num [TABLE_SIZE]
  have hall : ∀ k : Nat, (k : Int) < TABLE_SIZE → out (k : Int) = triTable.table (k : Int) := by
    intro k hk
    rw [hfill k hk, tri_phaseAfter]
    simp only [triTable, zero_add, Int.cast_natCast]
  have hval : ∀ k : Nat, (k : Int) < TABLE_SIZE →
      out (k : Int) = if (k : ℚ) / 2048 < 1 / 2 then (k : ℚ) / 2048
        else ((-1 * (k : ℚ)) / 2048) + 2 := by
    intro k hk
    rw [hall k hk]
    simp only [triTable, hN, Int.cast_natCast]
  refine ⟨⟨out⟩, by unfold Wavetable.initDefaultEnv; rw [hout]; rfl, hall, ?_, ?_, ?_⟩
  · have := hval 1023 (by decide)
    norm_num at this
    exact this
  · have := hval 1024 (by decide)
    norm_num at this
    exact this
  · intro k hk1 hk2
    show 1 < out (k : Int)
    rw [hval k hk2]
    have h1 : (1024 : ℚ) ≤ (k : ℚ) := by exact_mod_cast hk1
    have h2 : (k : ℚ) < 2048 := by
      have : (k : Int) < 2048 := hk2
      exact_mod_cast this
    have hk : (k : ℚ) / 2048 = (k : ℚ) * (1 / 2048) := by ring
    have hn : ¬ ((k : ℚ) / 2048 < 1 / 2) := by
      rw [hk]
      intro h
      linarith
    rw [if_neg hn]
    have hd : -1 * (k : ℚ) / 2048 = -((k : ℚ) * (1 / 2048)) := by ring
    rw [hd]
    linarith

/-- C13 (the code departs from the claim): `initWelchEnv` subtracts the centre
`N/2` from the normalised position `i/N` instead of from `i`, so entry `i` is
`1 - ((i/N - N/2) / (N/2))^2`.  It is 0 at `i = 0`, only `4095/4194304` at
`i = N/2`, and below `1/500` everywhere: the table never comes near the
peak 1. -/
theorem welch_table_never_peaks (w : Wavetable) :
    ∃ w', w.initWelchEnv = some w' ∧
      (∀ k : Nat, (k : Int) < TABLE_SIZE →
        w'.table (k : Int) = 1 - (((k : ℚ) / 2048 - 1024) / 1024) ^ 2) ∧
      w'.table 0 = 0 ∧ w'.table 1024 = 4095 / 4194304 ∧
      (∀ k : Nat, (k : Int) < TABLE_SIZE → w'.table (k : Int) < 1 / 500) := by
  obtain ⟨out, hout, hfill⟩ := fillTable_from_zero
    (fun i _ => 1 - ((((i : ℚ) / (TABLE_SIZE : ℚ)) - ((TABLE_SIZE : ℚ) / 2))
      / ((TABLE_SIZE : ℚ) / 2)) ^ 2)
    (fun _ phase => phase) w.table
  have hN : ((TABLE_SIZE : Int) : ℚ) = 2048 := by norm_num [TABLE_SIZE]
  have hall : ∀ k : Nat, (k : Int) < TABLE_SIZE →
      out (k : Int) = 1 - (((k : ℚ) / 2048 - 1024) / 1024) ^ 2 := by
    intro k hk
    rw [hfill k hk]
    simp only [hN, Int.cast_natCast]
    norm_num
  refine ⟨⟨out⟩, by unfold Wavetable.initWelchEnv; rw [hout]; rfl, hall, ?_, ?_, ?_⟩
  · have := hall 0 (by decide)
    norm_num at this
    exact this
  · have := hall 1024 (by decide)
    norm_num at this
    exact this
  · intro k hk
    show out (k : Int) < 1 / 500
    rw [hall k hk]
    have h0 : (0 : ℚ) ≤ (k : ℚ) := Nat.cast_nonneg k
    have h2 : (k : ℚ) < 2048 := by
      have : (k : Int) < 2048 := hk
      exact_mod_cast this
    have hx : ((k : ℚ) / 2048 - 1024) / 1024 = (k : ℚ) / 2097152 - 1 := by ring
    rw [hx]
    nlinarith [mul_nonneg h0 h0]

/-! ### Breakpoint ranges (C14) -/

/-- Extent of the breakpoint invariant on the oscillator: in every reachable
state all amplitudes lie in `[-1, 1]`, and a duration is either in
`[0.5, 1.5]` or still the 0 left by the initialiser. -/
theorem reachable_breakpoints {s : GendyOscillator} (hr : Reachable s) :
    ∀ i, (-1 ≤ s.amps i ∧ s.amps i ≤ 1) ∧
      ((1 / 2 ≤ s.durs i ∧ s.durs i ≤ 3 / 2) ∨ s.durs i = 0) := by
  induction hr with
  | init sine =>
    intro i
    simp only [GendyOscillator.init]
    by_cases hi : i = 0
    · simp only [hi, if_true]
      norm_num
    · simp only [hi, if_false]
      norm_num
  | host s c _ ih => exact ih
  | tick s s' dt r1 r2 _ htick ih =>
    intro i
    by_cases hp : 1 ≤ s.phase
    · obtain ⟨-, -, -, -, -, ha, hd, -⟩ := process_wrap_fields htick hp
      rw [ha, hd]
      by_cases hi : i = s'.index
      · rw [hi, Function.update_same, Function.update_same]
        exact ⟨wrap_mem _ _ _ (by norm_num), Or.inl (wrap_mem _ _ _ (by norm_num))⟩
      · rw [Function.update_noteq hi, Function.update_noteq hi]
        exact ih i
    · obtain ⟨-, -, ha, hd, -⟩ := process_nowrap_fields htick (not_le.mp hp)
      rw [ha, hd]
      exact ih i

/-- C14 (the code departs from the claim): the initialisers
`float durs[MAX_BPTS] = {1.f}` and `float mDurs[MAX_BPTS] = {1.f}` set only
entry 0 to 1 and leave the others 0.  In the constructed oscillator
(`num_bpts = 12`) and the constructed GenEcho module (`num_bpts = 29`) the
duration of breakpoint 1 is 0, outside `[0.5, 1.5]`, whereas the reset block
of GenEcho writes 1 to every duration. -/
theorem constructed_durations_out_of_range (sine : Wavetable) (g : GenEcho) (p : EchoIn)
    (i : Int) :
    ((1 : Int) < (GendyOscillator.init sine).num_bpts ∧
      (GendyOscillator.init sine).durs 1 = 0 ∧
      ¬ (1 / 2 ≤ (GendyOscillator.init sine).durs 1)) ∧
    ((1 : Int) < GenEcho.init.num_bpts ∧ GenEcho.init.mDurs 1 = 0 ∧
      ¬ (1 / 2 ≤ GenEcho.init.mDurs 1)) ∧
    (p.reset = true → 0 ≤ i → i < GenEcho.MAX_BPTS → (g.resetBlock p).mDurs i = 1) := by
  refine ⟨⟨?_, ?_, ?_⟩, ⟨by decide, ?_, ?_⟩, ?_⟩
  · show (1 : Int) < 12
    decide
  · simp [GendyOscillator.init]
  · simp [GendyOscillator.init]
  · simp [GenEcho.init]
  · simp [GenEcho.init]
  · intro hr h0 h1
    simp [GenEcho.resetBlock, hr, h0, h1]

/-- Witness for C14: the reset block on the constructed module sets the
duration of breakpoint 1 to 1. -/
theorem constructed_durations_out_of_range_witness :
    ({ holdIn with reset := true } : EchoIn).reset = true ∧
      (GenEcho.init.resetBlock { holdIn with reset := true }).mDurs 1 = 1 :=
  ⟨rfl, (constructed_durations_out_of_range zeroTable GenEcho.init
    { holdIn with reset := true } 1).2.2 rfl (by decide) (by decide)⟩

/-! ### Stitcher: which oscillators are advanced (C15) -/

theorem twoOscParams_num_oscs (s : Stitcher GendyOscillator) :
    (s.readParams twoOscParams).curr_num_oscs = 2 := by
  have h : clamp twoOscParams.nosc 1 4 = 2 := by
    norm_num [clamp, twoOscParams, plainParams]
  show truncQ (clamp twoOscParams.nosc 1 4) = 2
  rw [h]
  simp [truncQ]

theorem staleTick_eq :
    Stitcher.process gendyOps staleStitcher (1 / 48000) twoOscParams (0, 0) (0, 0)
      = some staleTick ∧ staleTick.2 = [3, 0] := by
  have hj : Int.tmod (staleStitcher.osc_idx + 1)
      (staleStitcher.readParams twoOscParams).curr_num_oscs = 0 := by
    rw [twoOscParams_num_oscs]
    decide
  obtain ⟨s', h⟩ := stitcher_handoff_defined gendyOps staleStitcher (1 / 48000) twoOscParams
    (0, 0) (0, 0) plainOsc1 plainOsc1 rfl (by decide) (by decide) plainOsc_tick
    plainOsc1_last_flag (by decide) (by rw [hj]; exact plainOsc_tick)
  rw [hj] at h
  have hd : staleTick = (s', [3, 0]) := by
    unfold staleTick
    rw [h]
    rfl
  rw [hd]
  exact ⟨h, rfl⟩

/-- C15 as stated fails: with `osc_idx = 3` and the active count lowered to 2,
the tick still calls `gos[3].process`, an oscillator whose index is not below
the active count, before the hand-off brings `osc_idx` back to 0. -/
theorem stale_oscillator_is_advanced :
    (staleStitcher.readParams twoOscParams).curr_num_oscs = 2 ∧
      Stitcher.process gendyOps staleStitcher (1 / 48000) twoOscParams (0, 0) (0, 0)
        = some staleTick ∧
      staleTick.2 = [3, 0] ∧
      ¬ (∀ k ∈ staleTick.2, k < (staleStitcher.readParams twoOscParams).curr_num_oscs) := by
  refine ⟨twoOscParams_num_oscs _, staleTick_eq.1, staleTick_eq.2, ?_⟩
  rw [staleTick_eq.2, twoOscParams_num_oscs]
  intro h
  exact absurd (h 3 (by simp)) (by decide)

/-- C15 (amended): the active count read on a tick lies in `1 .. NUM_OSCS`; a
tick that is not crossfading first advances `gos[osc_idx]` whatever the
active count is, and every other oscillator it advances (the one a hand-off
switches to) has an index in `0 .. curr_num_oscs - 1`, as has `osc_idx` after
a hand-off.  Hence if `osc_idx` is below the active count on entry, every
oscillator advanced on the tick has an index below the active count. -/
theorem advanced_oscillator_indices {O R : Type} (ops : OscOps O R) (s s' : Stitcher O)
    (deltaTime : ℚ) (p : StitcherParams O) (ra rb : R) (log : List Int)
    (htick : Stitcher.process ops s deltaTime p ra rb = some (s', log)) :
    (1 ≤ (s.readParams p).curr_num_oscs ∧ (s.readParams p).curr_num_oscs ≤ NUM_OSCS) ∧
    (s.is_swapping = false → log.head? = some s.osc_idx) ∧
    (∀ k ∈ log, k = s.osc_idx ∨ (0 ≤ k ∧ k < (s.readParams p).curr_num_oscs)) ∧
    (s.osc_idx < (s.readParams p).curr_num_oscs →
      ∀ k ∈ log, 0 ≤ k ∧ k < (s.readParams p).curr_num_oscs) ∧
    (s.is_swapping = false → s'.is_swapping = true →
      0 ≤ s'.osc_idx ∧ s'.osc_idx < (s.readParams p).curr_num_oscs) := by
  obtain ⟨hc1, hc4⟩ := readParams_num_oscs s p
  by_cases hsw : s.is_swapping = true
  · obtain ⟨hlog, -⟩ := stitcher_swapping_eq_some hsw htick
    subst hlog
    refine ⟨⟨hc1, hc4⟩, fun h => absurd hsw (by simp [h]), ?_, ?_, ?_⟩
    · intro k hk
      exact absurd hk (by simp)
    · intro _ k hk
      exact absurd hk (by simp)
    · intro h
      exact absurd hsw (by simp [h])
  · have hpl : s.is_swapping = false := by simpa using hsw
    obtain ⟨o, ⟨hi0, -⟩, -, hcase⟩ := stitcher_playing_eq_some hpl htick
    have hj0 : 0 ≤ Int.tmod (s.osc_idx + 1) (s.readParams p).curr_num_oscs :=
      Int.tmod_nonneg _ (by omega)
    have hj1 : Int.tmod (s.osc_idx + 1) (s.readParams p).curr_num_oscs
        < (s.readParams p).curr_num_oscs := Int.tmod_lt_of_pos _ (by omega)
    rcases hcase with ⟨-, n, -, hlog, rfl⟩ | ⟨-, hlog, rfl⟩
    · subst hlog
      refine ⟨⟨hc1, hc4⟩, fun _ => rfl, ?_, ?_, fun _ _ => ⟨hj0, hj1⟩⟩
      · intro k hk
        simp only [List.mem_cons, List.mem_singleton, List.not_mem_nil, or_false] at hk
        rcases hk with rfl | rfl
        · exact Or.inl rfl
        · exact Or.inr ⟨hj0, hj1⟩
      · intro hlt k hk
        simp only [List.mem_cons, List.mem_singleton, List.not_mem_nil, or_false] at hk
        rcases hk with rfl | rfl
        · exact ⟨hi0, hlt⟩
        · exact ⟨hj0, hj1⟩
    · subst hlog
      refine ⟨⟨hc1, hc4⟩, fun _ => rfl, ?_, ?_, ?_⟩
      · intro k hk
        simp only [List.mem_singleton] at hk
        exact Or.inl hk
      · intro hlt k hk
        simp only [List.mem_singleton] at hk
        subst hk
        exact ⟨hi0, hlt⟩
      · intro _ h
        exact absurd h (by simp)

/-- Witness for C15 (amended): the tick of `staleStitcher` with the count
lowered to 2 advances oscillator 3 first and leaves `osc_idx` below 2. -/
theorem advanced_oscillator_indices_witness :
    Stitcher.process gendyOps staleStitcher (1 / 48000) twoOscParams (0, 0) (0, 0)
        = some (staleTick.1, staleTick.2) ∧
      staleTick.2.head? = some staleStitcher.osc_idx :=
  ⟨staleTick_eq.1,
    (advanced_oscillator_indices gendyOps staleStitcher staleTick.1 (1 / 48000) twoOscParams
      (0, 0) (0, 0) staleTick.2 staleTick_eq.1).2.1 rfl⟩

/-! ### Oscillator: phase carry and grain accumulators (C16, C17, C18) -/

/-- Grain accumulators after a defined wrap tick. -/
theorem process_wrap_grain {s s' : GendyOscillator} {dt r1 r2 : ℚ}
    (h : s.process dt r1 r2 = some s') (hp : 1 ≤ s.phase) :
    s'.g_idx = fmod (s.g_idx_next + (s'.speed / 2)) 1 ∧
      s'.g_idx_next = fmod (0 + (s'.speed / 2)) 1 ∧
      s'.off = fmod (s.off_next + (s.g_rate * (1 / 10) * (1 / 48000))) 1 ∧
      s'.off_next = fmod (s.offs s'.index + (s.g_rate * (1 / 10000) * (1 / 48000))) 1 ∧
      s'.offs = s.offs ∧ s'.g_rate = s.g_rate := by
  obtain ⟨s1, s2, h1, h2, rfl⟩ := process_eq_some h
  rcases preBlend_eq_some h1 with ⟨-, hw⟩ | ⟨hlt, -⟩
  · obtain ⟨-, -, -, rfl⟩ := wrapTick_eq_some hw
    obtain ⟨hb, -⟩ := blend_eq_some h2
    rw [hb]
    simp only [GendyOscillator.advance]
    trivial
  · exact absurd hp (not_le.mpr hlt)

/-- Grain accumulators after a defined tick entered with `phase < 1`. -/
theorem process_nowrap_grain {s s' : GendyOscillator} {dt r1 r2 : ℚ}
    (h : s.process dt r1 r2 = some s') (hp : s.phase < 1) :
    s'.g_idx = fmod (s.g_idx + (s.speed / 2)) 1 ∧
      s'.g_idx_next = fmod (s.g_idx_next + (s.speed / 2)) 1 ∧
      s'.off = fmod (s.off + (s.g_rate * (1 / 10) * (1 / 48000))) 1 ∧
      s'.off_next = fmod (s.off_next + (s.g_rate * (1 / 10000) * (1 / 48000))) 1 ∧
      s'.offs = s.offs ∧ s'.g_rate = s.g_rate := by
  obtain ⟨s1, s2, h1, h2, rfl⟩ := process_eq_some h
  rcases preBlend_eq_some h1 with ⟨hge, -⟩ | ⟨-, rfl⟩
  · exact absurd hge (not_le.mpr hp)
  · obtain ⟨hb, -⟩ := blend_eq_some h2
    rw [hb]
    simp only [GendyOscillator.advance]
    trivial

/-- On non-negative arguments `fmod(x, 1)` is the fractional part. -/
theorem fmod_one_mem (x : ℚ) (hx : 0 ≤ x) : 0 ≤ fmod x 1 ∧ fmod x 1 < 1 := by
  unfold fmod truncQ
  simp only [div_one, mul_one, hx, if_true]
  exact ⟨by linarith [Int.floor_le x], by linarith [Int.lt_floor_add_one x]⟩

theorem fmod_one_of_mem (x : ℚ) (h0 : 0 ≤ x) (h1 : x < 1) : fmod x 1 = x := by
  unfold fmod truncQ
  simp only [div_one, mul_one, h0, if_true]
  have : Int.floor x = 0 := by
    rw [Int.floor_eq_iff]
    exact ⟨by simpa using h0, by simpa using h1⟩
  rw [this]
  simp

theorem plainOsc1_speed : plainOsc1.speed = 103 / 4800 := by
  obtain ⟨-, -, -, hidx, -, -, hd, -, -, -, hs, -⟩ :=
    process_wrap_fields plainOsc_tick (le_of_eq rfl)
  have hi : plainOsc1.index = 1 := by rw [hidx]; decide
  rw [hi] at hd hs
  rw [hs, hd]
  simp [plainOsc, plainControls, GendyOscillator.setControls, GendyOscillator.init,
    GendyOscillator.wrap]
  norm_num

theorem plainOsc1_phase : plainOsc1.phase = 103 / 4800 := by
  obtain ⟨-, -, -, -, -, -, -, -, -, -, -, hph, -⟩ :=
    process_wrap_fields plainOsc_tick (le_of_eq rfl)
  rw [hph, plainOsc1_speed]
  simp [plainOsc, plainControls, GendyOscillator.setControls, GendyOscillator.init]

theorem plainOsc2_tick : plainOsc1.process (1 / 48000) 0 0 = some plainOsc2 := by
  obtain ⟨hn, hi0, -, -, -, -, -, -, -, -, -, -, hnb⟩ :=
    process_wrap_fields plainOsc_tick (le_of_eq rfl)
  obtain ⟨s1, s2, h1, h2, he⟩ := process_eq_some plainOsc_tick
  have hg : plainOsc1.GRAN_ON = false := by
    rw [he]
    obtain ⟨-, -, hgm⟩ := preBlend_fields h1
    rw [(blend_eq_some h2).1]
    exact hgm
  obtain ⟨s', h⟩ := process_defined_of_gran_off plainOsc1 (1 / 48000) 0 0 hg
    (by rw [hnb]; decide) (by rw [hnb]; decide) hi0
  unfold plainOsc2
  rw [h]
  rfl

/-- C16: a tick of `process` entered with `phase < 1` leaves `speed` unchanged
and stores `phase + speed`; a tick entered with `phase >= 1` stores
`phase - 1 + speed'` with `speed'` the recomputed speed, so the remainder
`phase - 1` above 1.0 is carried into the new phase and no constant is
assigned to it. -/
theorem phase_carries_remainder (s s' : GendyOscillator) (deltaTime r1 r2 : ℚ)
    (htick : s.process deltaTime r1 r2 = some s') :
    (s.phase < 1 → s'.speed = s.speed ∧ s'.phase = s.phase + s.speed) ∧
    (1 ≤ s.phase →
      s'.phase = s.phase - 1 + s'.speed ∧ s'.phase - s'.speed = s.phase - 1 ∧
      s'.speed = ((((s.max_freq - s.min_freq : Int) : ℚ) * s'.durs s'.index
        + (s.min_freq : ℚ)) * deltaTime) * (s.num_bpts : ℚ) * s.freq_mul) := by
  constructor
  · intro hlt
    obtain ⟨-, -, -, -, -, -, hsp, hph, -⟩ := process_nowrap_fields htick hlt
    exact ⟨hsp, hph⟩
  · intro hge
    obtain ⟨-, -, -, -, -, -, -, -, -, -, hs, hph, -⟩ := process_wrap_fields htick hge
    exact ⟨hph, by rw [hph]; ring, hs⟩

/-- Witness for C16: the first tick of `plainOsc` wraps, the second does not. -/
theorem phase_carries_remainder_witness :
    (plainOsc.process (1 / 48000) 0 0 = some plainOsc1 ∧ 1 ≤ plainOsc.phase ∧
      plainOsc1.process (1 / 48000) 0 0 = some plainOsc2 ∧ plainOsc1.phase < 1) ∧
    plainOsc1.phase = plainOsc.phase - 1 + plainOsc1.speed ∧
    plainOsc2.phase = plainOsc1.phase + plainOsc1.speed :=
  have hp : (1 : ℚ) ≤ plainOsc.phase := le_of_eq rfl
  have hlt : plainOsc1.phase < 1 := by rw [plainOsc1_phase]; norm_num
  ⟨⟨plainOsc_tick, hp, plainOsc2_tick, hlt⟩,
    ((phase_carries_remainder plainOsc plainOsc1 (1 / 48000) 0 0 plainOsc_tick).2 hp).1,
    ((phase_carries_remainder plainOsc1 plainOsc2 (1 / 48000) 0 0 plainOsc2_tick).1 hlt).2⟩

/-- Invariant of the states reachable with non-negative speeds and grain
rate: the four grain accumulators lie in `[0, 1)` and the offset table is
still all zero. -/
theorem forward_invariant {s : GendyOscillator} (hr : ReachableForward s) :
    0 ≤ s.speed ∧ 0 ≤ s.g_rate ∧ (∀ i, s.offs i = 0) ∧
      (0 ≤ s.g_idx ∧ s.g_idx < 1) ∧ (0 ≤ s.g_idx_next ∧ s.g_idx_next < 1) ∧
      (0 ≤ s.off ∧ s.off < 1) ∧ (0 ≤ s.off_next ∧ s.off_next < 1) := by
  induction hr with
  | init sine =>
    simp only [GendyOscillator.init]
    norm_num
  | host s c _ hc ih =>
    obtain ⟨h1, -, h3, h4, h5, h6, h7⟩ := ih
    exact ⟨h1, hc, h3, h4, h5, h6, h7⟩
  | tick s s' dt r1 r2 _ htick hspeed ih =>
    obtain ⟨hs, hg, ho, ⟨a0, -⟩, ⟨b0, -⟩, ⟨c0, -⟩, ⟨d0, -⟩⟩ := ih
    have hinc1 : 0 ≤ s.g_rate * (1 / 10) * (1 / 48000) := by positivity
    have hinc2 : 0 ≤ s.g_rate * (1 / 10000) * (1 / 48000) := by positivity
    by_cases hp : 1 ≤ s.phase
    · obtain ⟨e1, e2, e3, e4, e5, e6⟩ := process_wrap_grain htick hp
      have hs' : 0 ≤ s'.speed := hspeed hp
      have hh : 0 ≤ s'.speed / 2 := by linarith
      refine ⟨hs', by rw [e6]; exact hg, by rw [e5]; exact ho, ?_, ?_, ?_, ?_⟩
      · rw [e1]
        exact fmod_one_mem _ (by linarith)
      · rw [e2]
        exact fmod_one_mem _ (by linarith)
      · rw [e3]
        exact fmod_one_mem _ (by linarith)
      · rw [e4, ho]
        exact fmod_one_mem _ (by linarith)
    · have hlt : s.phase < 1 := not_le.mp hp
      obtain ⟨e1, e2, e3, e4, e5, e6⟩ := process_nowrap_grain htick hlt
      obtain ⟨-, -, -, -, -, -, hsp, -⟩ := process_nowrap_fields htick hlt
      have hh : 0 ≤ s.speed / 2 := by linarith
      refine ⟨by rw [hsp]; exact hs, by rw [e6]; exact hg, by rw [e5]; exact ho, ?_, ?_, ?_, ?_⟩
      · rw [e1]
        exact fmod_one_mem _ (by linarith)
      · rw [e2]
        exact fmod_one_mem _ (by linarith)
      · rw [e3]
        exact fmod_one_mem _ (by linarith)
      · rw [e4]
        exact fmod_one_mem _ (by linarith)

/-- Grain accumulators between the wrap block and the output computation. -/
theorem preBlend_grain {s m : GendyOscillator} {dt r1 r2 : ℚ}
    (h : s.preBlend dt r1 r2 = some m) :
    (1 ≤ s.phase → m.g_idx = s.g_idx_next ∧ m.g_idx_next = 0 ∧ m.off = s.off_next ∧
      m.off_next = s.offs (Int.tmod (s.index + 1) s.num_bpts)) ∧
    (s.phase < 1 → m.g_idx = s.g_idx ∧ m.g_idx_next = s.g_idx_next ∧ m.off = s.off ∧
      m.off_next = s.off_next) := by
  rcases preBlend_eq_some h with ⟨hge, hw⟩ | ⟨hlt, rfl⟩
  · obtain ⟨-, -, -, rfl⟩ := wrapTick_eq_some hw
    exact ⟨fun _ => ⟨rfl, rfl, rfl, rfl⟩, fun hlt => absurd hge (not_le.mpr hlt)⟩
  · exact ⟨fun hge => absurd hge (not_le.mpr hlt), fun _ => ⟨rfl, rfl, rfl, rfl⟩⟩

theorem plainOscPre_eq : plainOsc.preBlend (1 / 48000) 0 0 = some plainOscPre := by
  obtain ⟨s1, s2, h1, -, -⟩ := process_eq_some plainOsc_tick
  unfold plainOscPre
  rw [h1]
  rfl

theorem plainOsc_forward : ReachableForward plainOsc :=
  ReachableForward.host _ plainControls (ReachableForward.init zeroTable)
    (by norm_num [plainControls])

/-- C17: in every state reachable from the constructed oscillator with every
recomputed `speed >= 0` and `g_rate >= 0`, the arguments `g_idx`, `off`,
`g_idx_next`, `off_next` that a tick passes to `env.get` and `sample.get`
lie in `[0, 1)`, the domain `Wavetable::get` documents. -/
theorem get_arguments_in_unit_interval (s m : GendyOscillator) (deltaTime r1 r2 : ℚ)
    (hr : ReachableForward s) (hm : s.preBlend deltaTime r1 r2 = some m) :
    m.getArgs = [m.g_idx, m.off, m.g_idx_next, m.off_next] ∧
      (0 ≤ m.g_idx ∧ m.g_idx < 1) ∧ (0 ≤ m.off ∧ m.off < 1) ∧
      (0 ≤ m.g_idx_next ∧ m.g_idx_next < 1) ∧ (0 ≤ m.off_next ∧ m.off_next < 1) ∧
      ∀ x ∈ m.getArgs, 0 ≤ x ∧ x < 1 := by
  obtain ⟨-, -, ho, ha, hb, hc, hd⟩ := forward_invariant hr
  obtain ⟨hw, hn⟩ := preBlend_grain hm
  have hall : (0 ≤ m.g_idx ∧ m.g_idx < 1) ∧ (0 ≤ m.off ∧ m.off < 1) ∧
      (0 ≤ m.g_idx_next ∧ m.g_idx_next < 1) ∧ (0 ≤ m.off_next ∧ m.off_next < 1) := by
    by_cases hp : 1 ≤ s.phase
    · obtain ⟨e1, e2, e3, e4⟩ := hw hp
      rw [e1, e2, e3, e4, ho]
      exact ⟨hb, hd, by norm_num, by norm_num⟩
    · obtain ⟨e1, e2, e3, e4⟩ := hn (not_le.mp hp)
      rw [e1, e2, e3, e4]
      exact ⟨ha, hc, hb, hd⟩
  refine ⟨rfl, hall.1, hall.2.1, hall.2.2.1, hall.2.2.2, ?_⟩
  intro x hx
  simp only [GendyOscillator.getArgs, List.mem_cons, List.mem_singleton, List.not_mem_nil,
    or_false] at hx
  rcases hx with rfl | rfl | rfl | rfl
  · exact hall.1
  · exact hall.2.1
  · exact hall.2.2.1
  · exact hall.2.2.2

/-- Witness for C17: the first tick of the constructed oscillator after a
host write. -/
theorem get_arguments_in_unit_interval_witness :
    (ReachableForward plainOsc ∧ plainOsc.preBlend (1 / 48000) 0 0 = some plainOscPre) ∧
      (0 ≤ plainOscPre.g_idx ∧ plainOscPre.g_idx < 1) :=
  ⟨⟨plainOsc_forward, plainOscPre_eq⟩,
    (get_arguments_in_unit_interval plainOsc plainOscPre (1 / 48000) 0 0 plainOsc_forward
      plainOscPre_eq).2.1⟩

theorem recordBlock_grain {g m : GenEcho} {p : EchoIn} (h : g.recordBlock p = some m) :
    m.phase = g.phase ∧ m.g_idx = g.g_idx ∧ m.g_idx_next = g.g_idx_next ∧
      m.env_dur = g.env_dur := by
  unfold GenEcho.recordBlock at h
  by_cases hs : g.sampling = true
  · rw [if_pos hs] at h
    by_cases hge : g.s_i ≥ MAX_SAMPLE_SIZE - 50
    · rw [if_pos hge] at h
      simp only [Option.bind_eq_bind, Option.pure_def, Option.bind_eq_some,
        Option.some.injEq] at h
      obtain ⟨x, -, y, -, r, -, rfl⟩ := h
      exact ⟨rfl, rfl, rfl, rfl⟩
    · rw [if_neg hge] at h
      simp only [Option.bind_eq_bind, Option.pure_def, Option.bind_eq_some,
        Option.some.injEq] at h
      obtain ⟨a, -, v, -, b, -, rfl⟩ := h
      exact ⟨rfl, rfl, rfl, rfl⟩
  · rw [if_neg hs] at h
    simp only [Option.some.injEq] at h
    subst h
    exact ⟨rfl, rfl, rfl, rfl⟩

/-- The recorder part of a tick leaves the grain accumulators and the phase
alone and sets `env_dur` from the breakpoint spacing read on the tick. -/
theorem recorded_grain {s m : GenEcho} {p : EchoIn} (h : s.recorded p = some m) :
    m.phase = s.phase ∧ m.g_idx = s.g_idx ∧ m.g_idx_next = s.g_idx_next ∧
      m.env_dur = p.bpt_spc / 2 := by
  unfold GenEcho.recorded at h
  simp only [Option.bind_eq_bind, Option.bind_eq_some] at h
  obtain ⟨s0, h0, h1⟩ := h
  obtain ⟨a1, a2, a3, a4⟩ := recordBlock_grain h1
  have hr : ((s0.resetBlock p).gateBlock p).phase = s0.phase ∧
      ((s0.resetBlock p).gateBlock p).g_idx = s0.g_idx ∧
      ((s0.resetBlock p).gateBlock p).g_idx_next = s0.g_idx_next ∧
      ((s0.resetBlock p).gateBlock p).env_dur = s0.env_dur := by
    unfold GenEcho.gateBlock GenEcho.resetBlock
    by_cases hg : p.gate = true <;> by_cases hre : p.reset = true <;>
      simp [hg, hre]
  unfold GenEcho.readParams at h0
  by_cases hz : p.bpt_spc = 0
  · rw [if_pos hz] at h0
    exact absurd h0 (by simp)
  · rw [if_neg hz] at h0
    simp only [Option.some.injEq] at h0
    subst h0
    rw [a1, a2, a3, a4, hr.1, hr.2.1, hr.2.2.1, hr.2.2.2]
    exact ⟨rfl, rfl, rfl, rfl⟩

theorem wrapBlock_grain {lib : EchoLib} {s m : GenEcho} {p : EchoIn}
    (h : GenEcho.wrapBlock lib s p = some m) :
    m.env_dur = s.env_dur ∧
      (1 ≤ s.phase → m.g_idx = s.g_idx_next ∧ m.g_idx_next = 0) ∧
      (s.phase < 1 → m.g_idx = s.g_idx ∧ m.g_idx_next = s.g_idx_next) := by
  unfold GenEcho.wrapBlock at h
  by_cases hp : 1 ≤ s.phase
  · rw [if_pos hp] at h
    by_cases hn : s.num_bpts = 0
    · rw [if_pos hn] at h
      exact absurd h (by simp)
    · rw [if_neg hn] at h
      simp only [Option.bind_eq_bind, Option.pure_def, Option.bind_eq_some,
        Option.some.injEq] at h
      obtain ⟨a, -, d, -, ma, -, md, -, an, -, rfl⟩ := h
      exact ⟨rfl, fun _ => ⟨rfl, rfl⟩, fun hlt => absurd hp (not_le.mpr hlt)⟩
  · rw [if_neg hp] at h
    simp only [Option.some.injEq] at h
    subst h
    exact ⟨rfl, fun hge => absurd hge hp, fun _ => ⟨rfl, rfl⟩⟩

theorem writeBlock_grain {lib : EchoLib} {s m : GenEcho} {out : ℚ}
    (h : GenEcho.writeBlock lib s = some (m, out)) :
    m.g_idx = fmod (s.g_idx + (1 / (4 * (s.env_dur : ℚ)))) 1 ∧
      m.g_idx_next = fmod (s.g_idx_next + (1 / (4 * (s.env_dur : ℚ)))) 1 := by
  unfold GenEcho.writeBlock at h
  by_cases hz : s.sample_length = 0
  · rw [if_pos hz] at h
    exact absurd h (by simp)
  · rw [if_neg hz] at h
    simp only [Option.bind_eq_bind, Option.pure_def, Option.bind_eq_some, Option.some.injEq,
      Prod.mk.injEq] at h
    obtain ⟨v, -, e, -, smp, -, ao, -, d, -, rfl, -⟩ := h
    exact ⟨rfl, rfl⟩

/-- Grain accumulators of GenEcho over a whole tick. -/
theorem echo_process_grain {lib : EchoLib} {e e' : GenEcho} {p : EchoIn} {out : ℚ}
    (h : GenEcho.process lib e p = some (e', out)) :
    (e.phase < 1 →
      e'.g_idx = fmod (e.g_idx + (1 / (4 * ((p.bpt_spc / 2 : Int) : ℚ)))) 1 ∧
      e'.g_idx_next = fmod (e.g_idx_next + (1 / (4 * ((p.bpt_spc / 2 : Int) : ℚ)))) 1) ∧
    (1 ≤ e.phase →
      e'.g_idx = fmod (e.g_idx_next + (1 / (4 * ((p.bpt_spc / 2 : Int) : ℚ)))) 1 ∧
      e'.g_idx_next = fmod (0 + (1 / (4 * ((p.bpt_spc / 2 : Int) : ℚ)))) 1) := by
  unfold GenEcho.process at h
  simp only [Option.bind_eq_bind, Option.bind_eq_some] at h
  obtain ⟨m, hm, w, hw, hwr⟩ := h
  obtain ⟨r1, r2, r3, r4⟩ := recorded_grain hm
  obtain ⟨w1, w2, w3⟩ := wrapBlock_grain hw
  obtain ⟨x1, x2⟩ := writeBlock_grain hwr
  rw [x1, x2, w1, r4]
  constructor
  · intro hlt
    obtain ⟨y1, y2⟩ := w3 (by rw [r1]; exact hlt)
    rw [y1, y2, r2, r3]
    exact ⟨rfl, rfl⟩
  · intro hge
    obtain ⟨y1, y2⟩ := w2 (by rw [r1]; exact hge)
    rw [y1, y2, r3]
    exact ⟨rfl, rfl⟩

theorem plainOsc1_g_idx_next : plainOsc1.g_idx_next = 103 / 9600 := by
  obtain ⟨-, e2, -⟩ := process_wrap_grain plainOsc_tick (le_of_eq rfl)
  rw [e2, plainOsc1_speed]
  rw [fmod_one_of_mem _ (by norm_num) (by norm_num)]
  norm_num

/-- C18 as stated fails: on the first (wrap) tick of `plainOsc` the previous
`g_idx_next` is `1/2` and the recomputed speed `103/4800`, so the claim gives
`(1/2 + 103/9600) mod 1 = 4903/9600`; the code assigns `g_idx_next = 0.0`
before the advance and stores `103/9600`. -/
theorem wrap_restarts_next_grain :
    (plainOsc.process (1 / 48000) 0 0 = some plainOsc1 ∧ 1 ≤ plainOsc.phase) ∧
      plainOsc1.g_idx_next = 103 / 9600 ∧
      fmod (plainOsc.g_idx_next + plainOsc1.speed / 2) 1 = 4903 / 9600 ∧
      plainOsc1.g_idx_next ≠ fmod (plainOsc.g_idx_next + plainOsc1.speed / 2) 1 := by
  have hprev : plainOsc.g_idx_next = 1 / 2 := rfl
  have hclaim : fmod (plainOsc.g_idx_next + plainOsc1.speed / 2) 1 = 4903 / 9600 := by
    rw [hprev, plainOsc1_speed, fmod_one_of_mem _ (by norm_num) (by norm_num)]
    norm_num
  refine ⟨⟨plainOsc_tick, le_of_eq rfl⟩, plainOsc1_g_idx_next, hclaim, ?_⟩
  rw [plainOsc1_g_idx_next, hclaim]
  norm_num

/-- C18 (amended): on a tick entered with `phase < 1` every grain accumulator
takes its own previous value advanced by its increment modulo 1.0.  On a wrap
tick `g_idx` takes the previous `g_idx_next` and `off` the previous
`off_next`, each advanced by its increment modulo 1.0, while `g_idx_next` is
restarted from the constant 0 and `off_next` from the table entry
`offs[index]` before being advanced.  GenEcho treats `g_idx` and `g_idx_next`
the same way with the increment `1 / (4 * env_dur)`. -/
theorem grain_accumulator_updates (s s' : GendyOscillator) (deltaTime r1 r2 : ℚ)
    (lib : EchoLib) (e e' : GenEcho) (p : EchoIn) (out : ℚ)
    (htick : s.process deltaTime r1 r2 = some s')
    (hecho : GenEcho.process lib e p = some (e', out)) :
    (s.phase < 1 →
      s'.g_idx = fmod (s.g_idx + (s.speed / 2)) 1 ∧
      s'.g_idx_next = fmod (s.g_idx_next + (s.speed / 2)) 1 ∧
      s'.off = fmod (s.off + (s.g_rate * (1 / 10) * (1 / 48000))) 1 ∧
      s'.off_next = fmod (s.off_next + (s.g_rate * (1 / 10000) * (1 / 48000))) 1) ∧
    (1 ≤ s.phase →
      s'.g_idx = fmod (s.g_idx_next + (s'.speed / 2)) 1 ∧
      s'.g_idx_next = fmod (0 + (s'.speed / 2)) 1 ∧
      s'.off = fmod (s.off_next + (s.g_rate * (1 / 10) * (1 / 48000))) 1 ∧
      s'.off_next = fmod (s.offs s'.index + (s.g_rate * (1 / 10000) * (1 / 48000))) 1) ∧
    (e.phase < 1 →
      e'.g_idx = fmod (e.g_idx + (1 / (4 * ((p.bpt_spc / 2 : Int) : ℚ)))) 1 ∧
      e'.g_idx_next = fmod (e.g_idx_next + (1 / (4 * ((p.bpt_spc / 2 : Int) : ℚ)))) 1) ∧
    (1 ≤ e.phase →
      e'.g_idx = fmod (e.g_idx_next + (1 / (4 * ((p.bpt_spc / 2 : Int) : ℚ)))) 1 ∧
      e'.g_idx_next = fmod (0 + (1 / (4 * ((p.bpt_spc / 2 : Int) : ℚ)))) 1) := by
  refine ⟨?_, ?_, (echo_process_grain hecho).1, (echo_process_grain hecho).2⟩
  · intro hlt
    obtain ⟨e1, e2, e3, e4, -⟩ := process_nowrap_grain htick hlt
    exact ⟨e1, e2, e3, e4⟩
  · intro hge
    obtain ⟨e1, e2, e3, e4, -⟩ := process_wrap_grain htick hge
    exact ⟨e1, e2, e3, e4⟩

/-- Witness for C18 (amended): the first tick of `plainOsc` and the gate tick
of the constructed GenEcho module, both wrap ticks. -/
theorem grain_accumulator_updates_witness :
    (plainOsc.process (1 / 48000) 0 0 = some plainOsc1 ∧
      GenEcho.process clampLib GenEcho.init gateIn = some (echoGated.1, echoGated.2)) ∧
    plainOsc1.g_idx_next = fmod (0 + (plainOsc1.speed / 2)) 1 ∧
    echoGated.1.g_idx_next = fmod (0 + (1 / (4 * ((gateIn.bpt_spc / 2 : Int) : ℚ)))) 1 :=
  have h := grain_accumulator_updates plainOsc plainOsc1 (1 / 48000) 0 0 clampLib
    GenEcho.init echoGated.1 gateIn echoGated.2 plainOsc_tick echoGated_tick
  ⟨⟨plainOsc_tick, echoGated_tick⟩, (h.2.1 (le_of_eq rfl)).2.1,
    (h.2.2.2 (le_of_eq rfl)).2⟩

/-! ### GenEcho: snapshot and cross-fade (C19) -/

/-- The recorder writes the snapshot only below the smoothing window, and not
at all on the tick that writes the cross-fade. -/
theorem recordBlock_snapshot {g m : GenEcho} {p : EchoIn} (h : g.recordBlock p = some m) :
    (∀ j, MAX_SAMPLE_SIZE - 50 ≤ j → m._sample j = g._sample j) ∧
      (g.sampling = true → MAX_SAMPLE_SIZE - 50 ≤ g.s_i →
        m._sample = g._sample ∧ m.sampling = false) := by
  unfold GenEcho.recordBlock at h
  by_cases hs : g.sampling = true
  · rw [if_pos hs] at h
    by_cases hge : g.s_i ≥ MAX_SAMPLE_SIZE - 50
    · rw [if_pos hge] at h
      simp only [Option.bind_eq_bind, Option.pure_def, Option.bind_eq_some,
        Option.some.injEq] at h
      obtain ⟨x, -, y, -, r, -, rfl⟩ := h
      exact ⟨fun _ _ => rfl, fun _ _ => ⟨rfl, rfl⟩⟩
    · rw [if_neg hge] at h
      simp only [Option.bind_eq_bind, Option.pure_def, Option.bind_eq_some,
        Option.some.injEq] at h
      obtain ⟨a, -, v, -, b, hb, rfl⟩ := h
      obtain ⟨-, -, rfl⟩ := writeArr_eq_some hb
      refine ⟨?_, fun _ hwin => absurd hwin hge⟩
      intro j hj
      exact Function.update_noteq (by omega) _ _
  · rw [if_neg hs] at h
    simp only [Option.some.injEq] at h
    subst h
    exact ⟨fun _ _ => rfl, fun hsam => absurd hsam hs⟩

/-- A whole tick leaves the snapshot alone from `MAX_SAMPLE_SIZE - 50` on. -/
theorem process_snapshot_tail {lib : EchoLib} {s s' : GenEcho} {p : EchoIn} {out : ℚ}
    (h : GenEcho.process lib s p = some (s', out)) :
    ∀ j, MAX_SAMPLE_SIZE - 50 ≤ j → s'._sample j = s._sample j := by
  obtain ⟨m, hm, -, -, e3, -⟩ := process_after_recorded h
  obtain ⟨s0, -, hrb, f1, -⟩ := recorded_eq_some hm
  obtain ⟨r1, -⟩ := resetBlock_fields s0 p
  obtain ⟨g1, -⟩ := gateBlock_fields (s0.resetBlock p) p
  intro j hj
  rw [e3, (recordBlock_snapshot hrb).1 j hj, g1, r1, f1]

theorem run_snapshot_tail (lib : EchoLib) :
    ∀ (ps : List EchoIn) (s s' : GenEcho), GenEcho.run lib s ps = some s' →
      ∀ j, MAX_SAMPLE_SIZE - 50 ≤ j → s'._sample j = s._sample j := by
  intro ps
  induction ps with
  | nil =>
    intro s s' h j _
    simp only [GenEcho.run, Option.some.injEq] at h
    rw [h]
  | cons p ps ih =>
    intro s s' h j hj
    simp only [GenEcho.run, Option.bind_eq_bind, Option.bind_eq_some] at h
    obtain ⟨⟨s1, out⟩, hstep, hrest⟩ := h
    rw [ih s1 s' hrest j hj, process_snapshot_tail hstep j hj]

/-- The recorder part of a tick is defined when the cursor is inside the
smoothing window of a recording. -/
theorem recorded_defined_in_window (t : GenEcho) (q : EchoIn) (ht : t.sampling = true)
    (h0 : MAX_SAMPLE_SIZE - 50 ≤ t.s_i) (h1 : t.s_i < MAX_SAMPLE_SIZE)
    (hq : q.gate = false) (hqb : q.bpt_spc ≠ 0) : ∃ m, t.recorded q = some m := by
  have hrp : ∃ t0, t.readParams q = some t0 ∧ t0.s_i = t.s_i ∧ t0.sampling = t.sampling := by
    unfold GenEcho.readParams
    rw [if_neg hqb]
    exact ⟨_, rfl, rfl, rfl⟩
  obtain ⟨t0, ht0, e3, e4⟩ := hrp
  obtain ⟨-, r2, r3⟩ := resetBlock_fields t0 q
  obtain ⟨-, -, g3, g4⟩ := gateBlock_fields (t0.resetBlock q) q
  have hs : ((t0.resetBlock q).gateBlock q).sampling = true := by
    rw [g4, r3, e4, ht, hq]
    rfl
  have hsi : ((t0.resetBlock q).gateBlock q).s_i = t.s_i := by
    rw [g3, r2, e3]
    simp [hq]
  obtain ⟨m, hm, -⟩ := recordBlock_fill q hs (by rw [hsi]; exact h0) (by rw [hsi]; exact h1)
  refine ⟨m, ?_⟩
  unfold GenEcho.recorded
  simp only [ht0, Option.bind_eq_bind, Option.some_bind]
  exact hm

theorem echoFilled_recorded : echoFull.recorded holdIn = some echoFilled := by
  obtain ⟨m, hm⟩ := recorded_defined_in_window echoFull holdIn rfl (by decide) (by decide)
    rfl (by decide)
  unfold echoFilled
  rw [hm]
  rfl

theorem echoAfterParams_eq : echoGated.1.readParams echoResetIn = some echoAfterParams := by
  have hb : echoResetIn.bpt_spc ≠ 0 := by decide
  unfold echoAfterParams GenEcho.readParams
  rw [if_neg hb]
  rfl

/-- C19: no tick writes the snapshot `_sample` at a position from
`MAX_SAMPLE_SIZE - 50` on, and the tick that writes the 50-sample cross-fade
leaves the whole snapshot as it was and ends the recording; so after any run
of ticks a reset copies into the last 50 live samples the contents the
snapshot had before the run, not the cross-fade. -/
theorem snapshot_excludes_crossfade (lib : EchoLib) (s s1 : GenEcho) (ps : List EchoIn)
    (q : EchoIn) (t0 t m : GenEcho) (p : EchoIn)
    (hrun : GenEcho.run lib s ps = some s1)
    (hq : q.reset = true) (ht0 : s1.readParams q = some t0)
    (hts : t.sampling = true) (hti : MAX_SAMPLE_SIZE - 50 ≤ t.s_i) (hpg : p.gate = false)
    (hfill : t.recorded p = some m) :
    (∀ j, MAX_SAMPLE_SIZE - 50 ≤ j → s1._sample j = s._sample j) ∧
    (m._sample = t._sample ∧ m.sampling = false) ∧
    (∀ j, MAX_SAMPLE_SIZE - 50 ≤ j → j < MAX_SAMPLE_SIZE →
      (t0.resetBlock q).sample j = s._sample j) := by
  have htail := run_snapshot_tail lib ps s s1 hrun
  refine ⟨htail, ?_, ?_⟩
  · obtain ⟨u0, -, hrb, f1, f2, f3, -⟩ := recorded_eq_some hfill
    obtain ⟨r1, r2, r3⟩ := resetBlock_fields u0 p
    obtain ⟨g1, -, g3, g4⟩ := gateBlock_fields (u0.resetBlock p) p
    have hs : ((u0.resetBlock p).gateBlock p).sampling = true := by
      rw [g4, r3, f3, hts, hpg]
      rfl
    have hsi : MAX_SAMPLE_SIZE - 50 ≤ ((u0.resetBlock p).gateBlock p).s_i := by
      rw [g3, r2, f2]
      simpa [hpg] using hti
    obtain ⟨k1, k2⟩ := (recordBlock_snapshot hrb).2 hs hsi
    exact ⟨by rw [k1, g1, r1, f1], k2⟩
  · intro j hj0 hj1
    have hM : MAX_SAMPLE_SIZE = 44100 := rfl
    have hsnap : t0._sample = s1._sample := by
      unfold GenEcho.readParams at ht0
      by_cases hz : q.bpt_spc = 0
      · rw [if_pos hz] at ht0
        exact absurd ht0 (by simp)
      · rw [if_neg hz] at ht0
        simp only [Option.some.injEq] at ht0
        subst ht0
        rfl
    have hcopy : (t0.resetBlock q).sample j = t0._sample j := by
      unfold GenEcho.resetBlock
      have hj : 0 ≤ j := by omega
      simp [hq, hj, hj1]
    rw [hcopy, hsnap, htail j hj0]

/-- Witness for C19: the gate tick on the constructed module, a reset tick
after it, and the cross-fade tick from `echoFull`. -/
theorem snapshot_excludes_crossfade_witness :
    (GenEcho.run clampLib GenEcho.init [gateIn] = some echoGated.1 ∧
      echoResetIn.reset = true ∧ echoGated.1.readParams echoResetIn = some echoAfterParams ∧
      echoFull.sampling = true ∧ MAX_SAMPLE_SIZE - 50 ≤ echoFull.s_i ∧
      holdIn.gate = false ∧ echoFull.recorded holdIn = some echoFilled) ∧
    (echoFilled._sample = echoFull._sample ∧ echoFilled.sampling = false) ∧
    (echoAfterParams.resetBlock echoResetIn).sample (MAX_SAMPLE_SIZE - 1) = 0 := by
  have hwin : MAX_SAMPLE_SIZE - 50 ≤ echoFull.s_i := by decide
  have h := snapshot_excludes_crossfade clampLib GenEcho.init echoGated.1 [gateIn] echoResetIn
    echoAfterParams echoFull echoFilled holdIn echoGated_run rfl echoAfterParams_eq rfl hwin
    rfl echoFilled_recorded
  refine ⟨⟨echoGated_run, rfl, echoAfterParams_eq, rfl, hwin, rfl, echoFilled_recorded⟩,
    h.2.1, ?_⟩
  rw [h.2.2 (MAX_SAMPLE_SIZE - 1) (by decide) (by decide)]
  rfl

end SGDSS
